import Mathlib

/-!
Verification development for the crabtime macro engine
(source: src/macro/src/lib.rs, src/macro/src/error.rs).

Token streams are modelled as lists of token trees (`Tok`), text as lists
of characters, and the fallible operations as `Option`/`Except` values.
Every definition mirrors the corresponding Rust item; definitions whose
doc comment starts with "Modelled from the spec:" model behaviour of
external collaborators that the repository only consumes at an interface.
-/

namespace Crabtime

/-- Character constant for the opening curly brace (kept out of string
literals so that brace-escaping text is built explicitly). -/
def obr : Char := Char.ofNat 123

/-- Character constant for the closing curly brace. -/
def cbr : Char := Char.ofNat 125

/-- Character constant for the single quote. -/
def sq : Char := Char.ofNat 39

-- ============================
-- === Token tree data model ===
-- ============================

/-- Source position, mirroring proc_macro2::LineColumn. -/
structure LineCol where
  line : Nat
  column : Nat
deriving DecidableEq, Repr

/-- Source span of a token: start and end positions (proc_macro2::Span). -/
structure SrcSpan where
  start : LineCol
  stop : LineCol
deriving DecidableEq, Repr

/-- Group delimiter, mirroring proc_macro2::Delimiter. -/
inductive Delim where
  | brace
  | paren
  | bracket
  | noneDelim
deriving DecidableEq, Repr

/-- Token tree, mirroring proc_macro2::TokenTree: identifier, literal,
punctuation with alone/joint spacing, or delimited group owning a nested
token stream. A token stream is a `List Tok`. -/
inductive Tok where
  | ident (s : String) (sp : SrcSpan)
  | lit (s : String) (sp : SrcSpan)
  | punct (c : Char) (joint : Bool) (sp : SrcSpan)
  | group (d : Delim) (ts : List Tok) (sp : SrcSpan)

/-- Placeholder span used for tokens fabricated by the macro engine
(Span::call_site() in the source). -/
def callSite : SrcSpan := ⟨⟨1, 0⟩, ⟨1, 0⟩⟩

-- =======================
-- === Text utilities  ===
-- =======================

/-- Whitespace test used by str::trim (restricted to the ASCII whitespace
characters that can occur in the stdout protocol). -/
def isWs (c : Char) : Bool :=
  c == ' ' || c == '\t' || c == '\n' || c == '\r'

/-- Mirrors str::trim: removes leading and trailing whitespace. -/
def trim (cs : List Char) : List Char :=
  ((cs.dropWhile isWs).reverse.dropWhile isWs).reverse

/-- Mirrors str::strip_prefix: removes `pre` from the front when present. -/
def stripPre (pre cs : List Char) : Option (List Char) :=
  if pre.isPrefixOf cs then some (cs.drop pre.length) else none

/-- Mirrors str::split on a separator character. -/
def splitOnChar (sep : Char) (cs : List Char) : List (List Char) :=
  match cs with
  | [] => [[]]
  | c :: rest =>
    let r := splitOnChar sep rest
    if c == sep then [] :: r
    else match r with
      | [] => [[c]]
      | line :: more => (c :: line) :: more

/-- Mirrors str::find for a pattern string: index of the first occurrence. -/
def findSub (pat : List Char) : List Char → Option Nat
  | [] => if pat.isEmpty then some 0 else none
  | c :: cs =>
    if pat.isPrefixOf (c :: cs) then some 0
    else (findSub pat cs).map (· + 1)

/-- Mirrors str::replace `pat` → `rep` (left to right, non-overlapping);
`pat` is required to be nonempty by taking its head and tail separately. -/
def replaceSub (p : Char) (ps : List Char) (rep : List Char) : List Char → List Char
  | [] => []
  | c :: cs =>
    if h : (p :: ps).isPrefixOf (c :: cs) then
      rep ++ replaceSub p ps rep ((c :: cs).drop (p :: ps).length)
    else
      c :: replaceSub p ps rep cs
termination_by cs => cs.length
decreasing_by
  · simp only [List.isPrefixOf_iff_prefix] at h
    have hlen := h.length_le
    simp_all [List.length_drop]
    omega
  · simp

-- ==============================
-- === Stdout line protocol   ===
-- ==============================

/-- Fixed prefix marking generated-code lines (OUTPUT_PREFIX in lib.rs). -/
def OUTPUT_MARK : List Char := "[OUTPUT]".data

/-- Fixed prefix marking warning lines (Level::WARNING_PREFIX). -/
def WARNING_MARK : List Char := "[WARNING]".data

/-- Fixed prefix marking error lines (Level::ERROR_PREFIX). -/
def ERROR_MARK : List Char := "[ERROR]".data

/-- Result of parse_output: the accumulated generated-code buffer plus the
three diagnostic channels (print_warning, print_error, println), each in
emission order. -/
structure ParsedOutput where
  code : List Char
  warnings : List (List Char)
  errors : List (List Char)
  passthrough : List (List Char)
deriving DecidableEq, Repr

/-- Empty parse_output state. -/
def ParsedOutput.init : ParsedOutput := ⟨[], [], [], []⟩

/-- Dispatch of one stdout line, mirroring the loop body of parse_output:
the line is trimmed, then matched against the three prefixes in order;
unprefixed non-empty lines pass through verbatim (untrimmed). -/
def parseOutputLine (st : ParsedOutput) (line : List Char) : ParsedOutput :=
  let t := trim line
  match stripPre OUTPUT_MARK t with
  | some stripped => { st with code := st.code ++ stripped ++ ['\n'] }
  | none =>
    match stripPre WARNING_MARK t with
    | some stripped => { st with warnings := st.warnings ++ [stripped] }
    | none =>
      match stripPre ERROR_MARK t with
      | some stripped => { st with errors := st.errors ++ [stripped] }
      | none =>
        if t.isEmpty then st
        else { st with passthrough := st.passthrough ++ [line] }

/-- Mirrors parse_output in lib.rs: splits stdout on newlines and folds the
line dispatcher over the lines. -/
def parseOutput (output : List Char) : ParsedOutput :=
  (splitOnChar '\n' output).foldl parseOutputLine ParsedOutput.init

-- =====================
-- === Error chains  ===
-- =====================

/-- Diagnostic severity, mirroring error.rs Level. -/
inductive Level where
  | warning
  | error
deriving DecidableEq, Repr

/-- Structured error value, mirroring error.rs Issue: a severity, a message
and an optional boxed wrapped issue stored in the `context` field. Spans are
omitted (they only affect diagnostics placement, not the rendered text). -/
inductive Issue where
  | mk (level : Level) (message : List Char) (context : Option Issue)

/-- Mirrors Issue::context: stores the supplied issue in the context field,
overwriting any previously stored one. -/
def Issue.addContext : Issue → Issue → Issue
  | .mk l m _, c => .mk l m (some c)

/-- Mirrors Issue::message_with_cause: the own message, then each stored
context layer after a "Caused by:" separator. -/
def Issue.messageWithCause : Issue → List Char
  | .mk _ m none => m
  | .mk _ m (some ctx) => m ++ "\nCaused by: ".data ++ ctx.messageWithCause

/-- Mirrors the Context trait impl for Result: on Err, attach the context
issue to the carried error. -/
def resultContext (r : Except Issue α) (issue : Issue) : Except Issue α :=
  match r with
  | .ok a => .ok a
  | .error e => .error (e.addContext issue)

-- =========================
-- === Subprocess runner ===
-- =========================

/-- Runtime-panic marker searched for in cargo stderr
(the string: thread <sq>main<sq> panicked). -/
def PANIC_MARKER : List Char :=
  "thread ".data ++ [sq] ++ "main".data ++ [sq] ++ " panicked".data

/-- Outcome of run_cargo_project: captured stdout on success, an error value
for a failed compilation, or an abrupt process panic re-raising the tail of
stderr from the panic marker on. -/
inductive RunOutcome where
  | ok (stdoutText : List Char)
  | compileError (message : List Char)
  | panicAbort (message : List Char)
deriving DecidableEq, Repr

/-- Result of run_cargo_project together with the stderr text surfaced to
the user via eprintln on failure (none when nothing was printed). -/
structure RunCargoResult where
  surfacedStderr : Option (List Char)
  outcome : RunOutcome
deriving DecidableEq, Repr

/-- Message of the error produced when the generated project fails to build. -/
def COMPILATION_FAILED : List Char := "Compilation of the generated code failed.".data

/-- Mirrors run_cargo_project in lib.rs, abstracting the process invocation:
the inputs are the exit status and the captured stdout/stderr of
cargo run. On success the stdout text is returned unchanged. On failure the
stderr is surfaced first; then, if it contains the runtime-panic marker, the
function panics with the stderr tail starting at the marker, otherwise it
returns the compilation-failure error. -/
def runCargoProject (exitSuccess : Bool) (stdoutText stderrText : List Char) :
    RunCargoResult :=
  if !exitSuccess then
    let surfaced := some stderrText
    match findSub PANIC_MARKER stderrText with
    | some index => ⟨surfaced, .panicAbort (stderrText.drop index)⟩
    | none => ⟨surfaced, .compileError COMPILATION_FAILED⟩
  else
    ⟨none, .ok stdoutText⟩

-- =====================
-- === MacroOptions  ===
-- =====================

/-- Flag set parsed from the attribute argument list, mirroring
MacroOptions in lib.rs (it has exactly these two fields). -/
structure MacroOptions where
  cache : Bool
  content_base_name : Bool
deriving DecidableEq, Repr

/-- Default option values, mirroring the Default impl. -/
def MacroOptions.defaults : MacroOptions := ⟨true, false⟩

/-- Mirrors the syn Parse impl for MacroOptions, with the argument list
already tokenized into (identifier, boolean literal) pairs: known names set
the corresponding field, any other name is an unknown-attribute error. -/
def MacroOptions.parseList : List (String × Bool) → MacroOptions →
    Except (List Char) MacroOptions
  | [], acc => .ok acc
  | (name, value) :: rest, acc =>
    if name == "cache" then
      MacroOptions.parseList rest { acc with cache := value }
    else if name == "content_base_name" then
      MacroOptions.parseList rest { acc with content_base_name := value }
    else
      .error "unknown attribute".data

/-- Entry point of the MacroOptions parser, starting from the defaults. -/
def MacroOptions.parseArgs (args : List (String × Bool)) :
    Except (List Char) MacroOptions :=
  MacroOptions.parseList args MacroOptions.defaults

-- ===============================
-- === Argument pattern deriver ===
-- ===============================

/-- Shorthand for an identifier token fabricated at the call site span. -/
def mkIdent (s : String) : Tok := .ident s callSite

/-- Shorthand for an alone-spaced punctuation token. -/
def mkPunct (c : Char) : Tok := .punct c false callSite

/-- Shorthand for a joint-spaced punctuation token. -/
def mkJoint (c : Char) : Tok := .punct c true callSite

/-- Shorthand for a literal token. -/
def mkLit (s : String) : Tok := .lit s callSite

/-- Shorthand for a delimited group token. -/
def mkGroup (d : Delim) (ts : List Tok) : Tok := .group d ts callSite

/-- Subset of syn::Type inspected by the deriver: a path (each segment an
identifier with its angle-bracketed type arguments, only type arguments
being modelled), a reference, or any other shape (tuples, fn pointers, ...)
that the deriver never takes apart. -/
inductive SynType where
  | path (segments : List (String × List SynType))
  | reference (elem : SynType)
  | otherTy

/-- Subset of syn::Pat inspected by the deriver: a plain identifier binding,
a macro invocation pattern (the pattern escape hatch, carrying the macro
tokens), or any other pattern shape. -/
inductive SynPat where
  | identPat (name : String)
  | macroPat (tokens : List Tok)
  | otherPat

/-- Subset of syn::FnArg: a typed pattern or a self receiver. -/
inductive FnArg where
  | typed (pat : SynPat) (ty : SynType)
  | receiver

/-- Mirrors the enum Args in lib.rs: either a raw token-stream capture under
a binding name, or a macro-pattern fragment. -/
inductive Args where
  | tokenStream (identName : String)
  | pattern (str : List Tok)

mutual

/-- Renders a type back to tokens (the #ty interpolation in the quote
invocations of parse_args). -/
def tyToTokens : SynType → List Tok
  | .path segments => tySegsToTokens segments
  | .reference elem => mkPunct '&' :: tyToTokens elem
  | .otherTy => [mkIdent "UNSUPPORTED"]

/-- Renders path segments separated by double colons. -/
def tySegsToTokens : List (String × List SynType) → List Tok
  | [] => []
  | [(name, args)] => mkIdent name :: tyArgsToTokens args
  | (name, args) :: rest =>
    mkIdent name :: tyArgsToTokens args ++ [mkJoint ':', mkPunct ':'] ++
      tySegsToTokens rest

/-- Renders an angle-bracketed argument list (empty when there is none). -/
def tyArgsToTokens : List SynType → List Tok
  | [] => []
  | args => mkPunct '<' :: tyArgsListToTokens args ++ [mkPunct '>']

/-- Renders the comma-separated arguments inside the angle brackets. -/
def tyArgsListToTokens : List SynType → List Tok
  | [] => []
  | [t] => tyToTokens t
  | t :: rest => tyToTokens t ++ [mkPunct ','] ++ tyArgsListToTokens rest

end

/-- Recognizes the distinguished raw-token-stream parameter type: true
exactly when the type prints (via the quote stringification used in
parse_args_for_token_stream) as the bare single-segment path TokenStream. -/
def isTokenStreamTy : SynType → Bool
  | .path [("TokenStream", [])] => true
  | _ => false

/-- Integer type names accepted by parse_inner_type. -/
def INT_TYPE_NAMES : List String :=
  ["usize", "u8", "u16", "u32", "u64", "u128",
   "isize", "i8", "i16", "i32", "i64", "i128"]

/-- Mirrors parse_inner_type in lib.rs: returns the macro-pattern fragment
and the value-reconstruction tokens for a scalar parameter type, or none
when the type is not among the recognized scalar shapes. -/
def parseInnerType (pfx : String) (ty : SynType) : Option (List Tok × List Tok) :=
  let argIdent := mkIdent (pfx ++ "_arg")
  match ty with
  | .reference elem =>
    match elem with
    | .path segments =>
      match segments.getLast? with
      | some (name, _) =>
        if name == "str" then
          some ([mkPunct '$', argIdent, mkPunct ':', mkIdent "expr"],
                [mkIdent "crabtime", mkJoint ':', mkPunct ':',
                 mkIdent "stringify_if_needed", mkPunct '!',
                 mkGroup .brace [mkPunct '$', argIdent]])
        else none
      | none => none
    | _ => none
  | .path segments =>
    match segments.getLast? with
    | some (name, _) =>
      if name == "String" then
        some ([mkPunct '$', argIdent, mkPunct ':', mkIdent "expr"],
              [mkIdent "crabtime", mkJoint ':', mkPunct ':',
               mkIdent "stringify_if_needed", mkPunct '!',
               mkGroup .paren [mkPunct '$', argIdent],
               mkPunct '.', mkIdent "to_string", mkGroup .paren []])
      else if INT_TYPE_NAMES.contains name then
        some ([mkPunct '$', argIdent, mkPunct ':', mkIdent "literal"],
              [mkPunct '$', argIdent])
      else none
    | none => none
  | .otherTy => none

/-- Mirrors parse_arg_type in lib.rs: handles Vec types (deriving a
bracketed comma-separated list pattern from the inner scalar type) and
falls back to parse_inner_type for other path types; any non-path type
yields none. -/
def parseArgType (pfx : String) (ty : SynType) : Option (List Tok × List Tok) :=
  match ty with
  | .path segments =>
    match segments.getLast? with
    | none => none
    | some (name, args) =>
      if name == "Vec" then
        match args.head? with
        | some innerTy =>
          match parseInnerType pfx innerTy with
          | some (innerPat, innerCode) =>
            some ([mkGroup .bracket
                    ([mkPunct '$', mkGroup .paren innerPat, mkPunct ',',
                      mkPunct '*', mkPunct '$', mkGroup .paren [mkPunct ','],
                      mkPunct '?'])],
                  [mkGroup .bracket
                    ([mkPunct '$', mkGroup .paren innerCode, mkPunct ',',
                      mkPunct '*']),
                   mkPunct '.', mkIdent "into_iter", mkGroup .paren [],
                   mkPunct '.', mkIdent "collect", mkGroup .paren []])
          | none => none
        | none => none
      else parseInnerType pfx (.path segments)
  | _ => none

/-- Mirrors parse_args_for_pattern: accepts a single parameter whose pattern
is a macro invocation, taking its tokens verbatim. -/
def parseArgsForPattern : FnArg → Option Args
  | .typed (.macroPat tokens) _ => some (.pattern tokens)
  | _ => none

/-- Mirrors parse_args_for_token_stream: accepts a single identifier-bound
parameter of the distinguished TokenStream type. -/
def parseArgsForTokenStream : FnArg → Option Args
  | .typed (.identPat name) ty =>
    if isTokenStreamTy ty then some (.tokenStream name) else none
  | _ => none

/-- Mirrors the fallback loop of parse_args over the declared parameters,
accumulating the joined pattern and the setup code. -/
def parseArgsLoop : List FnArg → Bool → List Tok → List Tok → (List Tok × List Tok)
  | [], _, pat, code => (pat, code)
  | arg :: rest, isFirst, pat, code =>
    let pat := if !isFirst then pat ++ [mkPunct ','] else pat
    match arg with
    | .typed (.identPat name) ty =>
      let code := code ++ [mkIdent "let", mkIdent name, mkPunct ':'] ++
        tyToTokens ty ++ [mkPunct '=']
      let (pat, code) :=
        match parseArgType name ty with
        | some (paramPat, paramCode) => (pat ++ paramPat, code ++ paramCode)
        | none => (pat, code)
      parseArgsLoop rest false pat (code ++ [mkPunct ';'])
    | _ => parseArgsLoop rest false pat code

/-- Mirrors parse_args in lib.rs: zero parameters give the empty pattern;
otherwise the specialized pattern and token-stream parsers are tried on the
first parameter; otherwise the fallback loop derives a comma-joined pattern
(with optional trailing comma) and setup code. The fallback always
succeeds, so the whole function never returns none. -/
def parseArgs (args : List FnArg) : Option (Args × List Tok) :=
  match args.head? with
  | none => some (.pattern [], [])
  | some arg =>
    match (parseArgsForPattern arg).orElse (fun _ => parseArgsForTokenStream arg) with
    | some a => some (a, [])
    | none =>
      let (pat, code) := parseArgsLoop args true [] []
      some (.pattern (pat ++ [mkPunct '$', mkGroup .paren [mkPunct ','], mkPunct '?']),
            code)

/-- Text of the descriptive error that parse_args callers attach when the
derivation yields nothing (WRONG_ARGS in lib.rs). -/
def WRONG_ARGS : List Char :=
  ("Function should have zero or one argument, one of:\n" ++
   "    - `pattern!(<pattern>): _`, where <pattern> is a `macro_rules!` pattern\n" ++
   "    - `input: TokenStream`\n").data

-- =====================
-- === Token printer ===
-- =====================

/-- Keyword list from lib.rs, used only to pad keywords with extra spaces
for IDE compatibility. -/
def KEYWORDS : List String :=
  ["as", "async", "await", "break", "const", "continue", "crate", "dyn", "else", "enum",
   "extern", "false", "fn", "for", "if", "impl", "in", "let", "loop", "match", "mod", "move",
   "mut", "pub", "ref", "return", "self", "Self", "static", "struct", "super", "trait", "true",
   "type", "unsafe", "use", "where", "while", "abstract", "become", "box", "do", "final", "macro",
   "override", "priv", "typeof", "unsized", "virtual", "yield", "try"]

/-- Result of print_tokens_internal: the rendered text plus the source
positions of the first and last token consumed. -/
structure PrintOutput where
  output : List Char
  startTokenPos : Option LineCol
  endTokenPos : Option LineCol
deriving DecidableEq, Repr

/-- Loop of print_tokens_internal, carrying the mutable state of the Rust
for-loop: accumulated output, first token start, previous token end, and
whether the previous token was a brace group. For each token it computes
(add_space, token_start, token_end, is_brace, is_keyword, token_str) and
then appends padding, the token text and the optional trailing space,
retracting the previous trailing space at a brace boundary whose spans
overlap on the same line. -/
def printLoop : List Tok → List Char → Option LineCol → Option LineCol → Bool →
    PrintOutput
  | [], output, firstStart, prevEnd, _ => ⟨output, firstStart, prevEnd⟩
  | token :: rest, output, firstStart, prevEnd, prevWasBrace =>
    let info : Bool × LineCol × LineCol × Bool × Bool × List Char :=
      match token with
      | .group d g sp =>
        let content := printLoop g [] none none false
        let contentStr := content.output.dropLast
        let (isBr, openS, closeS) :=
          match d with
          | .brace =>
            if contentStr.head? == some obr && contentStr.getLast? == some cbr then
              (true, [obr, '%', '%', '%'], ['%', '%', '%', cbr])
            else
              (true, [obr], [cbr])
          | .paren => (false, ['('], [')'])
          | .bracket => (false, ['['], [']'])
          | .noneDelim => (false, [], [])
        let tokenStart :=
          match content.startTokenPos with
          | some cfs =>
            ⟨cfs.line, if cfs.column > 0 then cfs.column - 1 else sp.start.column⟩
          | none => sp.start
        let tokenEnd :=
          match content.endTokenPos with
          | some ce => ⟨ce.line, ce.column + 1⟩
          | none => sp.stop
        (true, tokenStart, tokenEnd, isBr, false, openS ++ contentStr ++ closeS)
      | .ident s sp => (true, sp.start, sp.stop, false, KEYWORDS.contains s, s.data)
      | .lit s sp => (true, sp.start, sp.stop, false, false, s.data)
      | .punct c joint sp => (!joint, sp.start, sp.stop, false, false, [c])
    match info with
    | (addSpace, tokenStart, tokenEnd, isBr, isKw, tokenStr) =>
      let output :=
        if isBr || prevWasBrace then
          match prevEnd with
          | some pe =>
            if pe.line == tokenStart.line && decide (tokenStart.column ≤ pe.column) &&
               output.getLast? == some ' ' then
              output.dropLast
            else output
          | none => output
        else output
      let output := if isKw then output ++ [' '] else output
      let output := output ++ tokenStr
      let output := if addSpace then output ++ [' '] else output
      let output := if isKw then output ++ [' '] else output
      let firstStart :=
        match firstStart with
        | none => some tokenStart
        | some x => some x
      printLoop rest output firstStart (some tokenEnd) isBr

/-- Mirrors print_tokens_internal in lib.rs. -/
def printTokensInternal (tokens : List Tok) : PrintOutput :=
  printLoop tokens [] none none false

/-- Mirrors print_tokens in lib.rs: renders the stream and then performs
the brace-escaping replacement chain (doubling braces and resolving the
placeholder markers inserted for brace-wrapped brace groups). -/
def printTokensText (tokens : List Tok) : List Char :=
  let s := (printTokensInternal tokens).output
  let s := replaceSub obr [] [obr, obr] s
  let s := replaceSub cbr [] [cbr, cbr] s
  let s := replaceSub obr [obr, '%', '%', '%', obr, obr, '%', '%', '%', obr, obr]
    [obr, obr, ' ', obr] s
  let s := replaceSub cbr [cbr, '%', '%', '%', cbr, cbr, '%', '%', '%', cbr, cbr]
    [cbr, ' ', cbr, cbr] s
  let s := replaceSub obr [obr, '%', '%', '%', obr, obr] [obr] s
  let s := replaceSub cbr [cbr, '%', '%', '%', cbr, cbr] [cbr] s
  s

-- ============================
-- === Pseudo-macro rewriter ===
-- ============================

/-- Mirrors expand_builtin_macro in lib.rs: scans for the token pattern
crabtime :: name ! (group), rewrites the group interior recursively first,
applies the transform to the rewritten interior, splices the result, and
continues after the call; all other tokens pass through with group
interiors rewritten recursively. -/
def expandBuiltin (name : String) (f : List Tok → List Tok) : List Tok → List Tok
  | .ident s0 sp0 :: .punct c1 j1 sp1 :: .punct c2 j2 sp2 :: .ident s3 sp3 ::
      .punct c4 j4 sp4 :: .group d g sp5 :: rest =>
    if s0 == "crabtime" && c1 == ':' && c2 == ':' && s3 == name && c4 == '!' then
      f (expandBuiltin name f g) ++ expandBuiltin name f rest
    else
      .ident s0 sp0 :: expandBuiltin name f (.punct c1 j1 sp1 :: .punct c2 j2 sp2 ::
        .ident s3 sp3 :: .punct c4 j4 sp4 :: .group d g sp5 :: rest)
  | .group d g sp :: rest =>
    .group d (expandBuiltin name f g) sp :: expandBuiltin name f rest
  | t :: rest => t :: expandBuiltin name f rest
  | [] => []

/-- Transform applied by expand_output_macro: the rewritten interior is
printed as escaped source text and becomes the string-literal argument of
a write_ln call appending to the shared output buffer. -/
def outputTransform (innerRewritten : List Tok) : List Tok :=
  [mkIdent "crabtime", mkJoint ':', mkPunct ':', mkIdent "write_ln", mkPunct '!',
   mkGroup .paren
     [mkIdent "__output_buffer__", mkPunct ',',
      mkLit (String.mk (printTokensText innerRewritten))],
   mkPunct ';']

/-- Mirrors expand_output_macro in lib.rs. -/
def expandOutput (input : List Tok) : List Tok :=
  expandBuiltin "output" outputTransform input

/-- Transform applied by expand_quote_macro: the rewritten interior is
printed as escaped source text and becomes a format string expression. -/
def quoteTransform (innerRewritten : List Tok) : List Tok :=
  [mkIdent "format", mkPunct '!',
   mkGroup .paren [mkLit (String.mk (printTokensText innerRewritten))]]

/-- Mirrors expand_quote_macro in lib.rs. -/
def expandQuote (input : List Tok) : List Tok :=
  expandBuiltin "quote" quoteTransform input

-- ==================================
-- === Call-syntax occurrence test ===
-- ==================================

/-- Tail of the call pattern after crabtime :: name !, expecting the
delimited group. -/
def callTail5 : List Tok → Bool
  | .group _ _ _ :: _ => true
  | _ => false

/-- Tail of the call pattern after crabtime :: name, expecting the bang. -/
def callTail4 : List Tok → Bool
  | .punct c _ _ :: rest => c == '!' && callTail5 rest
  | _ => false

/-- Tail of the call pattern after crabtime ::, expecting the macro name. -/
def callTail3 (name : String) : List Tok → Bool
  | .ident s _ :: rest => s == name && callTail4 rest
  | _ => false

/-- Tail of the call pattern after crabtime :, expecting the second colon. -/
def callTail2 (name : String) : List Tok → Bool
  | .punct c _ _ :: rest => c == ':' && callTail3 name rest
  | _ => false

/-- Tail of the call pattern after the crabtime identifier, expecting the
first colon. -/
def callTail1 (name : String) : List Tok → Bool
  | .punct c _ _ :: rest => c == ':' && callTail2 name rest
  | _ => false

/-- True when the token list begins with the pseudo-macro call pattern
crabtime :: name ! (group). -/
def isCallHead (name : String) : List Tok → Bool
  | .ident s _ :: rest => s == "crabtime" && callTail1 name rest
  | _ => false

/-- True when the pseudo-macro call syntax occurs anywhere in the stream,
at any nesting depth. -/
def containsCall (name : String) : List Tok → Bool
  | [] => false
  | t :: rest =>
    isCallHead name (t :: rest) ||
    (match t with
     | .group _ g _ => containsCall name g
     | _ => false) ||
    containsCall name rest

-- ==========================================
-- === Whitespace-insensitive token identity ===
-- ==========================================

/-- Span value used for tokens whose position is irrelevant. -/
def dummySpan : SrcSpan := ⟨⟨0, 0⟩, ⟨0, 0⟩⟩

mutual

/-- Erases the whitespace-sensitive attributes of a token (source span and
punctuation spacing), giving the identity under which re-lexed tokens are
compared: same identifiers, literals, punctuation characters and delimited
groups in the same order and nesting. -/
def eraseTok : Tok → Tok
  | .ident s _ => .ident s dummySpan
  | .lit s _ => .lit s dummySpan
  | .punct c _ _ => .punct c false dummySpan
  | .group d ts _ => .group d (eraseStream ts) dummySpan

/-- Erases a whole stream. -/
def eraseStream : List Tok → List Tok
  | [] => []
  | t :: r => eraseTok t :: eraseStream r

end

-- ==========================
-- === Character classes  ===
-- ==========================

/-- Identifier start characters: ASCII letters and underscore. -/
def identStartChar (c : Char) : Bool :=
  (65 ≤ c.toNat && c.toNat ≤ 90) || (97 ≤ c.toNat && c.toNat ≤ 122) || c.toNat == 95

/-- Identifier continuation characters: letters, underscore and digits. -/
def identContChar (c : Char) : Bool :=
  identStartChar c || (48 ≤ c.toNat && c.toNat ≤ 57)

/-- Decimal digit characters. -/
def digitChar (c : Char) : Bool :=
  48 ≤ c.toNat && c.toNat ≤ 57

/-- Characters usable as punctuation tokens: everything that is not
whitespace, not an identifier or digit character and not a delimiter. -/
def punctChar (c : Char) : Bool :=
  !isWs c && !identContChar c &&
  c.toNat != 40 && c.toNat != 41 && c.toNat != 91 && c.toNat != 93 &&
  c.toNat != 123 && c.toNat != 125

-- ========================================
-- === Host lexer (external collaborator) ===
-- ========================================

/-- Modelled from the spec: the host parser consumed as an opaque
"parse source text into a token tree" service (spec section 1, OUT OF
SCOPE list). Whitespace separates tokens; parentheses, brackets and braces
open and close nested groups (tracked on an explicit stack and rejected
when unbalanced); identifier characters and digit runs form identifier and
literal tokens; every other character is a punctuation token. -/
def lexLoop : List Char → List Tok → List (Delim × List Tok) → Option (List Tok)
  | [], acc, [] => some acc.reverse
  | [], _, _ :: _ => none
  | c :: cs, acc, stack =>
    if isWs c then lexLoop cs acc stack
    else if c.toNat == 40 then lexLoop cs [] ((.paren, acc) :: stack)
    else if c.toNat == 91 then lexLoop cs [] ((.bracket, acc) :: stack)
    else if c.toNat == 123 then lexLoop cs [] ((.brace, acc) :: stack)
    else if c.toNat == 41 then
      match stack with
      | (Delim.paren, acc0) :: stack0 =>
        lexLoop cs (.group .paren acc.reverse dummySpan :: acc0) stack0
      | _ => none
    else if c.toNat == 93 then
      match stack with
      | (Delim.bracket, acc0) :: stack0 =>
        lexLoop cs (.group .bracket acc.reverse dummySpan :: acc0) stack0
      | _ => none
    else if c.toNat == 125 then
      match stack with
      | (Delim.brace, acc0) :: stack0 =>
        lexLoop cs (.group .brace acc.reverse dummySpan :: acc0) stack0
      | _ => none
    else if identStartChar c then
      lexLoop (cs.dropWhile identContChar)
        (.ident (String.mk (c :: cs.takeWhile identContChar)) dummySpan :: acc) stack
    else if digitChar c then
      lexLoop (cs.dropWhile digitChar)
        (.lit (String.mk (c :: cs.takeWhile digitChar)) dummySpan :: acc) stack
    else
      lexLoop cs (.punct c false dummySpan :: acc) stack
termination_by cs _ _ => cs.length
decreasing_by
  all_goals simp_all
  all_goals exact Nat.lt_succ_of_le (List.dropWhile_suffix _).length_le

/-- Entry point of the modelled host lexer. -/
def lexText (cs : List Char) : Option (List Tok) :=
  lexLoop cs [] []

-- ===================================
-- === Well-formed printable streams ===
-- ===================================

/-- Identifier payloads produced by the host parser: nonempty, an
identifier start character followed by continuation characters. -/
def wfIdentStr (s : String) : Bool :=
  match s.data with
  | [] => false
  | c :: cs => identStartChar c && cs.all identContChar

/-- Literal payloads in the modelled fragment: nonempty digit runs
(numeric literals). -/
def wfLitStr (s : String) : Bool :=
  match s.data with
  | [] => false
  | c :: cs => digitChar c && cs.all digitChar

/-- Test used by the joint-spacing invariant: whether a stream begins with
a punctuation token. -/
def headIsPunct : List Tok → Bool
  | .punct _ _ _ :: _ => true
  | _ => false

/-- Host-parser invariants of a printable stream in the modelled fragment:
identifier and literal payloads well formed, punctuation characters
printable as single tokens, a joint-spaced punctuation token always
followed by another punctuation token (the proc-macro meaning of Joint),
and groups delimited by parentheses or brackets only. -/
def wfStream : List Tok → Bool
  | [] => true
  | .ident s _ :: r => wfIdentStr s && wfStream r
  | .lit s _ :: r => wfLitStr s && wfStream r
  | .punct c joint _ :: r =>
    punctChar c && (!joint || headIsPunct r) && wfStream r
  | .group d ts _ :: r =>
    (d == .paren || d == .bracket) && wfStream ts && wfStream r

-- ==========================================
-- === Rendered text of a brace-free stream ===
-- ==========================================

mutual

/-- Text contributed by one token in print_tokens_internal when no brace
group is involved (so the retraction branch never fires): optional keyword
padding, the token text, and the trailing space unless the token is a
joint-spaced punctuation. -/
def renderTok : Tok → List Char
  | .ident s _ =>
    (if KEYWORDS.contains s then [' '] else []) ++ s.data ++ [' '] ++
      (if KEYWORDS.contains s then [' '] else [])
  | .lit s _ => s.data ++ [' ']
  | .punct c joint _ => [c] ++ (if joint then [] else [' '])
  | .group d ts _ =>
    let oc : List Char × List Char :=
      match d with
      | .brace => ([obr], [cbr])
      | .paren => (['('], [')'])
      | .bracket => (['['], [']'])
      | .noneDelim => ([], [])
    oc.1 ++ (renderStream ts).dropLast ++ oc.2 ++ [' ']

/-- Concatenated rendering of a stream. -/
def renderStream : List Tok → List Char
  | [] => []
  | t :: r => renderTok t ++ renderStream r

end

-- =======================================
-- === Independent per-category parsing ===
-- =======================================

/-- Generated-code payloads of the stdout lines, extracted independently
per line: the trimmed line with the generated-code prefix stripped. -/
def codeLinesOf (lines : List (List Char)) : List (List Char) :=
  lines.filterMap (fun l => stripPre OUTPUT_MARK (trim l))

/-- Warning payloads of the stdout lines. -/
def warningLinesOf (lines : List (List Char)) : List (List Char) :=
  lines.filterMap (fun l => stripPre WARNING_MARK (trim l))

/-- Error payloads of the stdout lines. -/
def errorLinesOf (lines : List (List Char)) : List (List Char) :=
  lines.filterMap (fun l => stripPre ERROR_MARK (trim l))

/-- Plain passthrough lines: non-empty after trimming and matching none of
the three prefixes; kept verbatim. -/
def plainLinesOf (lines : List (List Char)) : List (List Char) :=
  lines.filter (fun l =>
    !(trim l).isEmpty && (stripPre OUTPUT_MARK (trim l)).isNone &&
    (stripPre WARNING_MARK (trim l)).isNone && (stripPre ERROR_MARK (trim l)).isNone)

/-- Newline-joined accumulation of the generated-code payloads. -/
def joinedCodeOf (lines : List (List Char)) : List Char :=
  ((codeLinesOf lines).map (fun s => s ++ ['\n'])).flatten

-- ================================
-- === Last-assignment semantics ===
-- ================================

/-- Value of the last assignment to `name` in an option list, with a
default when the option never occurs. -/
def lastVal (name : String) (l : List (String × Bool)) (dflt : Bool) : Bool :=
  l.foldl (fun acc p => if p.1 == name then p.2 else acc) dflt

/-- Boundary condition for re-lexing a rendered fragment: the following
text is empty or starts with a character that cannot extend an identifier
or literal run. -/
def lexBoundary (rest : List Char) : Prop :=
  rest = [] ∨ ∃ c cs, rest = c :: cs ∧ identContChar c = false

-- ================
-- === Theorems ===
-- ================

theorem OUTPUT_MARK_eq : OUTPUT_MARK = ['[', 'O', 'U', 'T', 'P', 'U', 'T', ']'] := rfl

theorem WARNING_MARK_eq : WARNING_MARK = ['[', 'W', 'A', 'R', 'N', 'I', 'N', 'G', ']'] := rfl

theorem ERROR_MARK_eq : ERROR_MARK = ['[', 'E', 'R', 'R', 'O', 'R', ']'] := rfl

theorem marks_out_warn {t : List Char} (h : OUTPUT_MARK.isPrefixOf t = true) :
    WARNING_MARK.isPrefixOf t = false := by
  rcases List.isPrefixOf_iff_prefix.mp h with ⟨u, hu⟩
  rw [Bool.eq_false_iff]
  intro hw
  rcases List.isPrefixOf_iff_prefix.mp hw with ⟨v, hv⟩
  rw [← hu] at hv
  simp [OUTPUT_MARK_eq, WARNING_MARK_eq] at hv

theorem marks_out_err {t : List Char} (h : OUTPUT_MARK.isPrefixOf t = true) :
    ERROR_MARK.isPrefixOf t = false := by
  rcases List.isPrefixOf_iff_prefix.mp h with ⟨u, hu⟩
  rw [Bool.eq_false_iff]
  intro hw
  rcases List.isPrefixOf_iff_prefix.mp hw with ⟨v, hv⟩
  rw [← hu] at hv
  simp [OUTPUT_MARK_eq, ERROR_MARK_eq] at hv

theorem marks_warn_err {t : List Char} (h : WARNING_MARK.isPrefixOf t = true) :
    ERROR_MARK.isPrefixOf t = false := by
  rcases List.isPrefixOf_iff_prefix.mp h with ⟨u, hu⟩
  rw [Bool.eq_false_iff]
  intro hw
  rcases List.isPrefixOf_iff_prefix.mp hw with ⟨v, hv⟩
  rw [← hu] at hv
  simp [WARNING_MARK_eq, ERROR_MARK_eq] at hv

theorem stripPre_isSome_pre {pre cs : List Char} {s : List Char}
    (h : stripPre pre cs = some s) : pre.isPrefixOf cs = true := by
  unfold stripPre at h
  split at h
  · assumption
  · exact absurd h (by simp)

theorem stripPre_none_of_not {pre cs : List Char} (h : pre.isPrefixOf cs = false) :
    stripPre pre cs = none := by
  unfold stripPre
  simp [h]

theorem parseOutput_fold (lines : List (List Char)) : ∀ st : ParsedOutput,
    lines.foldl parseOutputLine st =
      ⟨st.code ++ joinedCodeOf lines, st.warnings ++ warningLinesOf lines,
       st.errors ++ errorLinesOf lines, st.passthrough ++ plainLinesOf lines⟩ := by
  induction lines with
  | nil =>
    intro st
    simp [joinedCodeOf, codeLinesOf, warningLinesOf, errorLinesOf, plainLinesOf]
  | cons l ls ih =>
    intro st
    rw [List.foldl_cons, ih]
    cases hO : stripPre OUTPUT_MARK (trim l) with
    | some s =>
      have hw : stripPre WARNING_MARK (trim l) = none :=
        stripPre_none_of_not (marks_out_warn (stripPre_isSome_pre hO))
      have he : stripPre ERROR_MARK (trim l) = none :=
        stripPre_none_of_not (marks_out_err (stripPre_isSome_pre hO))
      simp [parseOutputLine, hO, hw, he, joinedCodeOf, codeLinesOf, warningLinesOf,
        errorLinesOf, plainLinesOf]
    | none =>
      cases hW : stripPre WARNING_MARK (trim l) with
      | some s =>
        have he : stripPre ERROR_MARK (trim l) = none :=
          stripPre_none_of_not (marks_warn_err (stripPre_isSome_pre hW))
        simp [parseOutputLine, hO, hW, he, joinedCodeOf, codeLinesOf, warningLinesOf,
          errorLinesOf, plainLinesOf]
      | none =>
        cases hE : stripPre ERROR_MARK (trim l) with
        | some s =>
          simp [parseOutputLine, hO, hW, hE, joinedCodeOf, codeLinesOf, warningLinesOf,
            errorLinesOf, plainLinesOf]
        | none =>
          cases hEm : (trim l).isEmpty with
          | true =>
            simp [parseOutputLine, hO, hW, hE, hEm, joinedCodeOf, codeLinesOf,
              warningLinesOf, errorLinesOf, plainLinesOf]
          | false =>
            simp [parseOutputLine, hO, hW, hE, hEm, joinedCodeOf, codeLinesOf,
              warningLinesOf, errorLinesOf, plainLinesOf]

/-- C2: parse_output trims each stdout line and dispatches it by exact
prefix: the generated-code payloads (prefix stripped) are accumulated
newline-joined into the returned code buffer, warning and error payloads
(prefix stripped) go to the matching diagnostic channel, and all other
non-empty lines pass through verbatim; within each category the original
line order is preserved. Formally, the sequential dispatch loop computes
exactly the four independent per-category extractions. -/
theorem C2_parse_output_routes_lines (output : List Char) :
    parseOutput output =
      ⟨joinedCodeOf (splitOnChar '\n' output),
       warningLinesOf (splitOnChar '\n' output),
       errorLinesOf (splitOnChar '\n' output),
       plainLinesOf (splitOnChar '\n' output)⟩ := by
  unfold parseOutput
  rw [parseOutput_fold]
  rfl

theorem splitOnChar_no_sep {sep : Char} {l : List Char} (h : sep ∉ l) :
    splitOnChar sep l = [l] := by
  induction l with
  | nil => rfl
  | cons c r ih =>
    have hc : (c == sep) = false := by
      simp only [beq_eq_false_iff_ne]
      intro hcs
      exact h (hcs ▸ List.mem_cons_self c r)
    have hr : sep ∉ r := fun hm => h (List.mem_cons_of_mem c hm)
    simp only [splitOnChar, hc, ih hr]
    simp

theorem dropWhile_ws_append {a b : List Char} (ha : ∀ c ∈ a, isWs c = true) :
    List.dropWhile isWs (a ++ b) = List.dropWhile isWs b := by
  induction a with
  | nil => simp
  | cons c r ih =>
    have hc : isWs c = true := ha c (List.mem_cons_self c r)
    simp only [List.cons_append, List.dropWhile_cons, hc, if_pos rfl]
    exact ih fun x hx => ha x (List.mem_cons_of_mem c hx)

theorem trim_of_solid {l : List Char} (h1 : ∀ c, l.head? = some c → isWs c = false)
    (h2 : ∀ c, l.getLast? = some c → isWs c = false) : trim l = l := by
  unfold trim
  have ha : List.dropWhile isWs l = l := by
    cases l with
    | nil => rfl
    | cons c r =>
      have hc : isWs c = false := h1 c rfl
      rw [List.dropWhile_cons, hc]
      simp
  rw [ha]
  have hb : List.dropWhile isWs l.reverse = l.reverse := by
    cases hrev : l.reverse with
    | nil => rfl
    | cons d q =>
      have hd : l.getLast? = some d := by
        rw [List.getLast?_eq_head?_reverse, hrev]
        rfl
      rw [List.dropWhile_cons, h2 d hd]
      simp
  rw [hb, List.reverse_reverse]

/-- C10: parse_output trims every stdout line before prefix matching, a
line that is empty after trimming is routed to none of the four
categories, and a generated-code line consisting of optional whitespace
indentation, the [OUTPUT] prefix, one space and a payload contributes the
space plus the payload (indentation lost, separating space kept) to the
code buffer with a newline appended. -/
theorem C10_parse_output_line_details (l ind txt : List Char)
    (hl : trim l = []) (hlnl : '\n' ∉ l)
    (hind : ∀ c ∈ ind, isWs c = true) (hindnl : '\n' ∉ ind)
    (htxtnl : '\n' ∉ txt) (htxt : txt ≠ [])
    (hlast : ∀ c, txt.getLast? = some c → isWs c = false) :
    parseOutput l = ParsedOutput.init ∧
    parseOutput (ind ++ OUTPUT_MARK ++ ' ' :: txt) =
      ⟨' ' :: txt ++ ['\n'], [], [], []⟩ := by
  constructor
  · unfold parseOutput
    rw [splitOnChar_no_sep hlnl]
    simp only [List.foldl_cons, List.foldl_nil]
    simp only [parseOutputLine, hl]
    rfl
  · have hnl : '\n' ∉ ind ++ OUTPUT_MARK ++ ' ' :: txt := by
      intro hm
      rcases List.mem_append.mp hm with hm1 | hm2
      · rcases List.mem_append.mp hm1 with hm3 | hm4
        · exact hindnl hm3
        · rw [OUTPUT_MARK_eq] at hm4
          simp at hm4
      · rcases List.mem_cons.mp hm2 with hm5 | hm6
        · simp at hm5
        · exact htxtnl hm6
    have hassoc : ind ++ OUTPUT_MARK ++ ' ' :: txt = ind ++ (OUTPUT_MARK ++ ' ' :: txt) :=
      List.append_assoc ind OUTPUT_MARK (' ' :: txt)
    have h1 : trim (ind ++ (OUTPUT_MARK ++ ' ' :: txt)) = trim (OUTPUT_MARK ++ ' ' :: txt) := by
      unfold trim
      rw [dropWhile_ws_append hind]
    have h2 : trim (OUTPUT_MARK ++ ' ' :: txt) = OUTPUT_MARK ++ ' ' :: txt := by
      apply trim_of_solid
      · intro c hc
        rw [OUTPUT_MARK_eq] at hc
        simp at hc
        subst hc
        rfl
      · intro c hc
        rw [List.getLast?_append_cons] at hc
        cases txt with
        | nil => exact absurd rfl htxt
        | cons a as =>
          rw [List.getLast?_cons_cons] at hc
          exact hlast c hc
    have htrim : trim (ind ++ OUTPUT_MARK ++ ' ' :: txt) = OUTPUT_MARK ++ ' ' :: txt := by
      rw [hassoc, h1, h2]
    have hstrip : stripPre OUTPUT_MARK (OUTPUT_MARK ++ ' ' :: txt) = some (' ' :: txt) := by
      unfold stripPre
      rw [if_pos (List.isPrefixOf_iff_prefix.mpr (List.prefix_append _ _))]
      rw [List.drop_left]
    unfold parseOutput
    rw [splitOnChar_no_sep hnl]
    simp only [List.foldl_cons, List.foldl_nil]
    simp only [parseOutputLine, htrim, hstrip]
    rfl

/-- C10 witness: the theorem applied to a whitespace-only line and to an
indented generated-code line. -/
theorem C10_witness :
    parseOutput "  ".data = ParsedOutput.init ∧
    parseOutput (" ".data ++ OUTPUT_MARK ++ ' ' :: "hello".data) =
      ⟨' ' :: "hello".data ++ ['\n'], [], [], []⟩ :=
  C10_parse_output_line_details "  ".data " ".data "hello".data
    (by rfl) (by decide) (by decide) (by decide) (by decide) (by decide)
    (by
      intro c hc
      have h : "hello".data.getLast? = some 'o' := rfl
      rw [h] at hc
      have h2 := Option.some.inj hc
      subst h2
      rfl)

/-- C5 counterexample: wrapping the inner failure E with the context layer
C1 and then with the layer C2 renders as the inner message first followed
by only the most recent layer; the outer context C2 appears after the
inner cause E (not before it) and the intermediate layer C1 is absent from
the rendered message, contradicting top-to-bottom concatenation of all
layers. -/
theorem C5_counterexample :
    (Issue.addContext
      (Issue.addContext (.mk .error "E".data none) (.mk .error "C1".data none))
      (.mk .error "C2".data none)).messageWithCause = "E\nCaused by: C2".data ∧
    ¬ List.IsInfix "C1".data
      ((Issue.addContext
        (Issue.addContext (.mk .error "E".data none) (.mk .error "C1".data none))
        (.mk .error "C2".data none)).messageWithCause) := by
  have h : (Issue.addContext
      (Issue.addContext (.mk .error "E".data none) (.mk .error "C1".data none))
      (.mk .error "C2".data none)).messageWithCause = "E\nCaused by: C2".data := by
    simp [Issue.addContext, Issue.messageWithCause]
  refine ⟨h, ?_⟩
  rw [h]
  decide

/-- C5 amended: the rendered error message places the innermost failure
message first and the added context layer after it behind a "Caused by:"
separator, and attaching a further context layer replaces the previously
attached one instead of chaining it. -/
theorem C5_amended_inner_first_last_context_wins :
    (∀ (l lc : Level) (m mc : List Char) (c0 cc : Option Issue),
      (Issue.addContext (.mk l m c0) (.mk lc mc cc)).messageWithCause =
        m ++ "\nCaused by: ".data ++ (Issue.mk lc mc cc).messageWithCause) ∧
    (∀ (e x y : Issue), (e.addContext x).addContext y = e.addContext y) := by
  constructor
  · intro l lc m mc c0 cc
    simp [Issue.addContext, Issue.messageWithCause]
  · intro e x y
    cases e
    rfl

theorem findSub_drop (pat : List Char) : ∀ (cs : List Char) (i : Nat),
    findSub pat cs = some i → pat.isPrefixOf (cs.drop i) = true := by
  intro cs
  induction cs with
  | nil =>
    intro i h
    unfold findSub at h
    split at h
    · rename_i hp
      have hi := Option.some.inj h
      subst hi
      cases pat with
      | nil => rfl
      | cons a as => simp [List.isEmpty] at hp
    · exact absurd h (by simp)
  | cons c cs ih =>
    intro i h
    unfold findSub at h
    split at h
    · rename_i hp
      have hi := Option.some.inj h
      subst hi
      exact hp
    · rcases Option.map_eq_some'.mp h with ⟨j, hj, hij⟩
      subst hij
      exact ih j hj

/-- C6: run_cargo_project returns the captured stdout exactly on a
successful exit; on a non-zero exit it surfaces the stderr text and fails
with the compilation-failure error, except that when stderr contains the
runtime-panic marker the run is aborted with the stderr tail starting at
the marker (a distinct outcome from the compilation error), so the panic
message stays visible. -/
theorem C6_run_cargo_project (stdoutText stderrText : List Char) :
    runCargoProject true stdoutText stderrText = ⟨none, .ok stdoutText⟩ ∧
    (findSub PANIC_MARKER stderrText = none →
      runCargoProject false stdoutText stderrText =
        ⟨some stderrText, .compileError COMPILATION_FAILED⟩) ∧
    (∀ i, findSub PANIC_MARKER stderrText = some i →
      runCargoProject false stdoutText stderrText =
        ⟨some stderrText, .panicAbort (stderrText.drop i)⟩ ∧
      PANIC_MARKER.isPrefixOf (stderrText.drop i) = true) := by
  refine ⟨rfl, ?_, ?_⟩
  · intro h
    simp [runCargoProject, h]
  · intro i h
    exact ⟨by simp [runCargoProject, h], findSub_drop _ _ i h⟩

/-- C6 witness: the theorem applied to a panicking stderr (marker found at
index 3) and to a plain failing stderr. -/
theorem C6_witness :
    runCargoProject false "out".data ("ab ".data ++ PANIC_MARKER ++ "!".data) =
      ⟨some ("ab ".data ++ PANIC_MARKER ++ "!".data),
       .panicAbort (("ab ".data ++ PANIC_MARKER ++ "!".data).drop 3)⟩ ∧
    PANIC_MARKER.isPrefixOf (("ab ".data ++ PANIC_MARKER ++ "!".data).drop 3) = true ∧
    runCargoProject false "out".data "boom".data =
      ⟨some "boom".data, .compileError COMPILATION_FAILED⟩ := by
  have h1 := (C6_run_cargo_project "out".data ("ab ".data ++ PANIC_MARKER ++ "!".data)).2.2
    3 (by decide)
  have h2 := (C6_run_cargo_project "out".data "boom".data).2.1 (by decide)
  exact ⟨h1.1, h1.2, h2⟩

/-- C9 counterexample: the attribute parser rejects the option
prevent_duplicate_names claimed by the spec; it is an unknown attribute. -/
theorem C9_counterexample :
    MacroOptions.parseArgs [("prevent_duplicate_names", true)] =
      .error "unknown attribute".data := by
  rfl

theorem parseList_known (l : List (String × Bool)) : ∀ acc : MacroOptions,
    (∀ p ∈ l, p.1 = "cache" ∨ p.1 = "content_base_name") →
    MacroOptions.parseList l acc =
      .ok ⟨lastVal "cache" l acc.cache, lastVal "content_base_name" l acc.content_base_name⟩ := by
  induction l with
  | nil =>
    intro acc _
    rfl
  | cons p rest ih =>
    intro acc h
    obtain ⟨n, b⟩ := p
    rcases h (n, b) (List.mem_cons_self _ _) with hn | hn <;>
      subst hn <;>
      simp [MacroOptions.parseList, lastVal,
        ih _ (fun q hq => h q (List.mem_cons_of_mem _ hq)), lastVal]

/-- C9 amended: the attribute argument parser accepts the comma-separated
options cache=<bool> and content_base_name=<bool>, each optional, with
defaults cache=true and content_base_name=false (later assignments
overriding earlier ones); any other option name, including
prevent_duplicate_names, is rejected as an unknown attribute. -/
theorem C9_amended_options (l : List (String × Bool))
    (h : ∀ p ∈ l, p.1 = "cache" ∨ p.1 = "content_base_name") :
    MacroOptions.defaults = ⟨true, false⟩ ∧
    MacroOptions.parseArgs l =
      .ok ⟨lastVal "cache" l true, lastVal "content_base_name" l false⟩ := by
  exact ⟨rfl, parseList_known l MacroOptions.defaults h⟩

/-- C9 witness: the amended theorem applied to a two-option list. -/
theorem C9_witness :
    MacroOptions.parseArgs [("cache", false), ("content_base_name", true)] =
      .ok ⟨false, true⟩ := by
  exact (C9_amended_options [("cache", false), ("content_base_name", true)]
    (by decide)).2

/-- C7: the argument-pattern derivation never fails: parse_args returns a
result for every parameter list, and in particular a parameter of an
unsupported type (here x: bool) yields a derived pattern with no capture
for it and the malformed setup code let x : bool = ; instead of the
descriptive WRONG_ARGS error demanded by the spec (the error path is
unreachable). -/
theorem C7_parse_args_never_fails :
    (∀ args : List FnArg, (parseArgs args).isSome = true) ∧
    parseArgs [FnArg.typed (.identPat "x") (.path [("bool", [])])] =
      some (.pattern [mkPunct '$', mkGroup .paren [mkPunct ','], mkPunct '?'],
            [mkIdent "let", mkIdent "x", mkPunct ':', mkIdent "bool", mkPunct '=',
             mkPunct ';']) := by
  constructor
  · intro args
    unfold parseArgs
    split
    · rfl
    · split
      · rfl
      · rcases hpc : parseArgsLoop args true [] [] with ⟨p, c⟩
        simp [hpc]
  · simp [parseArgs, parseArgsForPattern, parseArgsForTokenStream, isTokenStreamTy,
      parseArgsLoop, parseArgType, parseInnerType, tyToTokens, tySegsToTokens,
      tyArgsToTokens, INT_TYPE_NAMES, Option.orElse]

/-- C8 counterexample: the float widths f32 and f64 and a top-level text
reference are not recognized parameter shapes: the derivation yields
nothing for them, contradicting the claim that deriving succeeds for each
float width and for the text reference. -/
theorem C8_counterexample :
    parseArgType "x" (.path [("f32", [])]) = none ∧
    parseArgType "x" (.path [("f64", [])]) = none ∧
    parseArgType "x" (.reference (.path [("str", [])])) = none := by
  exact ⟨rfl, rfl, rfl⟩

/-- C8 amended: for each parameter-type shape the deriver actually
recognizes — owned text (String), every unsigned and signed integer width,
and Vec of an inner-supported scalar type (text reference, owned text or an
integer width) — the derivation succeeds, producing the expression or
literal capture fragment (bracketed comma-separated list for Vec) and the
matching value-reconstruction code; the call-site matching itself is done
by the host macro engine. -/
theorem C8_amended_supported_shapes (pfx : String) :
    (parseArgType pfx (.path [("String", [])]) =
      some ([mkPunct '$', mkIdent (pfx ++ "_arg"), mkPunct ':', mkIdent "expr"],
            [mkIdent "crabtime", mkJoint ':', mkPunct ':', mkIdent "stringify_if_needed",
             mkPunct '!', mkGroup .paren [mkPunct '$', mkIdent (pfx ++ "_arg")],
             mkPunct '.', mkIdent "to_string", mkGroup .paren []])) ∧
    (∀ n, n ∈ INT_TYPE_NAMES →
      parseArgType pfx (.path [(n, [])]) =
        some ([mkPunct '$', mkIdent (pfx ++ "_arg"), mkPunct ':', mkIdent "literal"],
              [mkPunct '$', mkIdent (pfx ++ "_arg")])) ∧
    (parseInnerType pfx (.reference (.path [("str", [])])) =
      some ([mkPunct '$', mkIdent (pfx ++ "_arg"), mkPunct ':', mkIdent "expr"],
            [mkIdent "crabtime", mkJoint ':', mkPunct ':', mkIdent "stringify_if_needed",
             mkPunct '!', mkGroup .brace [mkPunct '$', mkIdent (pfx ++ "_arg")]])) ∧
    (∀ innerTy innerPat innerCode,
      parseInnerType pfx innerTy = some (innerPat, innerCode) →
      parseArgType pfx (.path [("Vec", [innerTy])]) =
        some ([mkGroup .bracket
                [mkPunct '$', mkGroup .paren innerPat, mkPunct ',', mkPunct '*',
                 mkPunct '$', mkGroup .paren [mkPunct ','], mkPunct '?']],
              [mkGroup .bracket
                [mkPunct '$', mkGroup .paren innerCode, mkPunct ',', mkPunct '*'],
               mkPunct '.', mkIdent "into_iter", mkGroup .paren [],
               mkPunct '.', mkIdent "collect", mkGroup .paren []])) := by
  refine ⟨rfl, ?_, rfl, ?_⟩
  · intro n hn
    fin_cases hn <;> rfl
  · intro innerTy innerPat innerCode h
    simp [parseArgType, h]

/-- C8 witness: the amended theorem applied to a u32 parameter and to a
Vec of String parameter. -/
theorem C8_witness :
    parseArgType "x" (.path [("u32", [])]) =
      some ([mkPunct '$', mkIdent ("x" ++ "_arg"), mkPunct ':', mkIdent "literal"],
            [mkPunct '$', mkIdent ("x" ++ "_arg")]) ∧
    (parseArgType "x" (.path [("Vec", [.path [("String", [])]])])).isSome = true := by
  obtain ⟨h1, h2, h3, h4⟩ := C8_amended_supported_shapes "x"
  refine ⟨h2 "u32" (by decide), ?_⟩
  rw [h4 (.path [("String", [])]) _ _ h1]
  rfl

theorem containsCall_cons_ident (name s : String) (sp : SrcSpan) (rest : List Tok) :
    containsCall name (.ident s sp :: rest) =
      (isCallHead name (.ident s sp :: rest) || containsCall name rest) := by
  rw [containsCall]
  · simp
  · intro d g sp1 h
    exact Tok.noConfusion h

theorem containsCall_cons_lit (name s : String) (sp : SrcSpan) (rest : List Tok) :
    containsCall name (.lit s sp :: rest) =
      (isCallHead name (.lit s sp :: rest) || containsCall name rest) := by
  rw [containsCall]
  · simp
  · intro d g sp1 h
    exact Tok.noConfusion h

theorem containsCall_cons_punct (name : String) (c : Char) (j : Bool) (sp : SrcSpan)
    (rest : List Tok) :
    containsCall name (.punct c j sp :: rest) =
      (isCallHead name (.punct c j sp :: rest) || containsCall name rest) := by
  rw [containsCall]
  · simp
  · intro d g sp1 h
    exact Tok.noConfusion h

theorem containsCall_cons_group (name : String) (d : Delim) (g : List Tok)
    (sp : SrcSpan) (rest : List Tok) :
    containsCall name (.group d g sp :: rest) =
      (isCallHead name (.group d g sp :: rest) || containsCall name g ||
       containsCall name rest) := by
  rw [containsCall]

theorem outputTransform_no_call (x : List Tok) (L : List Tok)
    (hL : containsCall "output" L = false) :
    containsCall "output" (outputTransform x ++ L) = false := by
  simp only [outputTransform, List.cons_append, List.nil_append]
  simp [containsCall, isCallHead, callTail1, callTail2, callTail3, callTail4, callTail5,
    mkIdent, mkJoint, mkPunct, mkGroup, mkLit, hL]

theorem expandBuiltin_catchall (name : String) (f : List Tok → List Tok)
    (t : Tok) (rest : List Tok)
    (h1 : ∀ (s0 : String) (sp0 : SrcSpan) (c1 : Char) (j1 : Bool) (sp1 : SrcSpan)
      (c2 : Char) (j2 : Bool) (sp2 : SrcSpan) (s3 : String) (sp3 : SrcSpan)
      (c4 : Char) (j4 : Bool) (sp4 : SrcSpan) (d : Delim) (g : List Tok)
      (sp5 : SrcSpan) (rest1 : List Tok),
      t = Tok.ident s0 sp0 →
      rest = Tok.punct c1 j1 sp1 :: Tok.punct c2 j2 sp2 :: Tok.ident s3 sp3 ::
        Tok.punct c4 j4 sp4 :: Tok.group d g sp5 :: rest1 → False)
    (h2 : ∀ (d : Delim) (g : List Tok) (sp : SrcSpan), t = Tok.group d g sp → False) :
    expandBuiltin name f (t :: rest) = t :: expandBuiltin name f rest := by
  rw [expandBuiltin.eq_def]
  split
  · rename_i s0 sp0 c1 j1 sp1 c2 j2 sp2 s3 sp3 c4 j4 sp4 d g sp5 rest1 heq
    rw [List.cons.injEq] at heq
    exact absurd trivial (by
      have := h1 s0 sp0 c1 j1 sp1 c2 j2 sp2 s3 sp3 c4 j4 sp4 d g sp5 rest1 heq.1 heq.2
      exact fun _ => this)
  · rename_i d g sp rest1 heq
    rw [List.cons.injEq] at heq
    exact absurd trivial (fun _ => h2 d g sp heq.1)
  · rename_i t1 rest1 heq
    rw [List.cons.injEq] at heq
    rw [heq.1, heq.2]
  · rename_i heq
    exact absurd heq (by simp)

theorem tails_mirror (r : List Tok) :
    callTail1 "output" (expandBuiltin "output" outputTransform r) = callTail1 "output" r ∧
    callTail2 "output" (expandBuiltin "output" outputTransform r) = callTail2 "output" r ∧
    callTail3 "output" (expandBuiltin "output" outputTransform r) = callTail3 "output" r ∧
    callTail4 (expandBuiltin "output" outputTransform r) = callTail4 r ∧
    callTail5 (expandBuiltin "output" outputTransform r) = callTail5 r := by
  induction r using expandBuiltin.induct "output" outputTransform with
  | case1 s0 sp0 c1 j1 sp1 c2 j2 sp2 s3 sp3 c4 j4 sp4 d g sp5 rest hguard ihg ihrest =>
    simp only [Bool.and_eq_true, beq_iff_eq] at hguard
    obtain ⟨⟨⟨⟨hs0, hc1⟩, hc2⟩, hs3⟩, hc4⟩ := hguard
    subst hs0 hc1 hc2 hs3 hc4
    rw [show expandBuiltin "output" outputTransform
        (Tok.ident "crabtime" sp0 :: Tok.punct ':' j1 sp1 :: Tok.punct ':' j2 sp2 ::
         Tok.ident "output" sp3 :: Tok.punct '!' j4 sp4 :: Tok.group d g sp5 :: rest) =
        outputTransform (expandBuiltin "output" outputTransform g) ++
          expandBuiltin "output" outputTransform rest from by
      rw [expandBuiltin]
      simp]
    simp [outputTransform, callTail1, callTail2, callTail3, callTail4, callTail5,
      mkIdent, mkJoint, mkPunct, mkGroup, mkLit]
  | case2 s0 sp0 c1 j1 sp1 c2 j2 sp2 s3 sp3 c4 j4 sp4 d g sp5 rest hguard ih =>
    obtain ⟨m1, m2, m3, m4, m5⟩ := ih
    rw [show expandBuiltin "output" outputTransform
        (Tok.ident s0 sp0 :: Tok.punct c1 j1 sp1 :: Tok.punct c2 j2 sp2 ::
         Tok.ident s3 sp3 :: Tok.punct c4 j4 sp4 :: Tok.group d g sp5 :: rest) =
        Tok.ident s0 sp0 :: expandBuiltin "output" outputTransform
          (Tok.punct c1 j1 sp1 :: Tok.punct c2 j2 sp2 :: Tok.ident s3 sp3 ::
           Tok.punct c4 j4 sp4 :: Tok.group d g sp5 :: rest) from by
      rw [expandBuiltin]
      simp [hguard]]
    refine ⟨by simp [callTail1], by simp [callTail2], ?_, by simp [callTail4],
      by simp [callTail5]⟩
    simp [callTail3, m4]
  | case3 d g sp rest ihg ihrest =>
    rw [show expandBuiltin "output" outputTransform (Tok.group d g sp :: rest) =
        Tok.group d (expandBuiltin "output" outputTransform g) sp ::
          expandBuiltin "output" outputTransform rest from by rw [expandBuiltin]]
    simp [callTail1, callTail2, callTail3, callTail4, callTail5]
  | case4 t rest h1 h2 ih =>
    obtain ⟨m1, m2, m3, m4, m5⟩ := ih
    rw [expandBuiltin_catchall _ _ _ _ h1 h2]
    cases t with
    | ident s sp =>
      refine ⟨by simp [callTail1], by simp [callTail2], ?_, by simp [callTail4],
        by simp [callTail5]⟩
      simp [callTail3, m4]
    | lit s sp =>
      simp [callTail1, callTail2, callTail3, callTail4, callTail5]
    | punct c j sp =>
      refine ⟨by simp [callTail1, m2], by simp [callTail2, m3], by simp [callTail3],
        by simp [callTail4, m5], by simp [callTail5]⟩
    | group d g sp =>
      exact absurd rfl (h2 d g sp)
  | case5 =>
    simp [expandBuiltin, callTail1, callTail2, callTail3, callTail4, callTail5]

theorem callTail1_shape {name : String} {r : List Tok}
    (h : callTail1 name r = true) :
    ∃ (j1 : Bool) (sp1 : SrcSpan) (j2 : Bool) (sp2 : SrcSpan) (sp3 : SrcSpan)
      (j4 : Bool) (sp4 : SrcSpan) (d : Delim) (g : List Tok) (sp5 : SrcSpan)
      (r5 : List Tok),
      r = Tok.punct ':' j1 sp1 :: Tok.punct ':' j2 sp2 :: Tok.ident name sp3 ::
        Tok.punct '!' j4 sp4 :: Tok.group d g sp5 :: r5 := by
  rcases r with _ | ⟨t1, r⟩
  · simp [callTail1] at h
  cases t1 with
  | punct c1 j1 sp1 =>
    rw [callTail1] at h
    simp only [Bool.and_eq_true, beq_iff_eq] at h
    obtain ⟨hc1, h⟩ := h
    subst hc1
    rcases r with _ | ⟨t2, r⟩
    · simp [callTail2] at h
    cases t2 with
    | punct c2 j2 sp2 =>
      rw [callTail2] at h
      simp only [Bool.and_eq_true, beq_iff_eq] at h
      obtain ⟨hc2, h⟩ := h
      subst hc2
      rcases r with _ | ⟨t3, r⟩
      · simp [callTail3] at h
      cases t3 with
      | ident s3 sp3 =>
        rw [callTail3] at h
        simp only [Bool.and_eq_true, beq_iff_eq] at h
        obtain ⟨hs3, h⟩ := h
        subst hs3
        rcases r with _ | ⟨t4, r⟩
        · simp [callTail4] at h
        cases t4 with
        | punct c4 j4 sp4 =>
          rw [callTail4] at h
          simp only [Bool.and_eq_true, beq_iff_eq] at h
          obtain ⟨hc4, h⟩ := h
          subst hc4
          rcases r with _ | ⟨t5, r⟩
          · simp [callTail5] at h
          cases t5 with
          | group d g sp5 =>
            exact ⟨_, _, _, _, _, _, _, _, _, _, _, rfl⟩
          | ident s sp => simp [callTail5] at h
          | lit s sp => simp [callTail5] at h
          | punct c j sp => simp [callTail5] at h
        | ident s sp => simp [callTail4] at h
        | lit s sp => simp [callTail4] at h
        | group d g sp => simp [callTail4] at h
      | punct c j sp => simp [callTail3] at h
      | lit s sp => simp [callTail3] at h
      | group d g sp => simp [callTail3] at h
    | ident s sp => simp [callTail2] at h
    | lit s sp => simp [callTail2] at h
    | group d g sp => simp [callTail2] at h
  | ident s sp => simp [callTail1] at h
  | lit s sp => simp [callTail1] at h
  | group d g sp => simp [callTail1] at h

theorem expandOutput_no_call_aux (ts : List Tok) :
    containsCall "output" (expandBuiltin "output" outputTransform ts) = false := by
  induction ts using expandBuiltin.induct "output" outputTransform with
  | case1 s0 sp0 c1 j1 sp1 c2 j2 sp2 s3 sp3 c4 j4 sp4 d g sp5 rest hguard ihg ihrest =>
    simp only [Bool.and_eq_true, beq_iff_eq] at hguard
    obtain ⟨⟨⟨⟨hs0, hc1⟩, hc2⟩, hs3⟩, hc4⟩ := hguard
    subst hs0 hc1 hc2 hs3 hc4
    rw [show expandBuiltin "output" outputTransform
        (Tok.ident "crabtime" sp0 :: Tok.punct ':' j1 sp1 :: Tok.punct ':' j2 sp2 ::
         Tok.ident "output" sp3 :: Tok.punct '!' j4 sp4 :: Tok.group d g sp5 :: rest) =
        outputTransform (expandBuiltin "output" outputTransform g) ++
          expandBuiltin "output" outputTransform rest from by
      rw [expandBuiltin]
      simp]
    exact outputTransform_no_call _ _ ihrest
  | case2 s0 sp0 c1 j1 sp1 c2 j2 sp2 s3 sp3 c4 j4 sp4 d g sp5 rest hguard ih =>
    rw [show expandBuiltin "output" outputTransform
        (Tok.ident s0 sp0 :: Tok.punct c1 j1 sp1 :: Tok.punct c2 j2 sp2 ::
         Tok.ident s3 sp3 :: Tok.punct c4 j4 sp4 :: Tok.group d g sp5 :: rest) =
        Tok.ident s0 sp0 :: expandBuiltin "output" outputTransform
          (Tok.punct c1 j1 sp1 :: Tok.punct c2 j2 sp2 :: Tok.ident s3 sp3 ::
           Tok.punct c4 j4 sp4 :: Tok.group d g sp5 :: rest) from by
      rw [expandBuiltin]
      simp [hguard]]
    rw [containsCall_cons_ident]
    simp only [Bool.or_eq_false_iff]
    refine ⟨?_, ih⟩
    rw [isCallHead]
    obtain ⟨m1, _, _, _, _⟩ := tails_mirror
      (Tok.punct c1 j1 sp1 :: Tok.punct c2 j2 sp2 :: Tok.ident s3 sp3 ::
       Tok.punct c4 j4 sp4 :: Tok.group d g sp5 :: rest)
    rw [m1]
    rw [callTail1]
    rw [callTail2]
    rw [callTail3]
    rw [callTail4]
    rw [callTail5]
    simp only [Bool.and_true]
    have hg : (s0 == "crabtime" && c1 == ':' && c2 == ':' && s3 == "output" &&
        c4 == '!') = false := Bool.eq_false_iff.mpr hguard
    simp only [← Bool.and_assoc]
    exact hg
  | case3 d g sp rest ihg ihrest =>
    rw [show expandBuiltin "output" outputTransform (Tok.group d g sp :: rest) =
        Tok.group d (expandBuiltin "output" outputTransform g) sp ::
          expandBuiltin "output" outputTransform rest from by rw [expandBuiltin]]
    rw [containsCall_cons_group]
    simp only [Bool.or_eq_false_iff]
    exact ⟨⟨rfl, ihg⟩, ihrest⟩
  | case4 t rest h1 h2 ih =>
    rw [expandBuiltin_catchall _ _ _ _ h1 h2]
    cases t with
    | ident s sp =>
      rw [containsCall_cons_ident]
      simp only [Bool.or_eq_false_iff]
      refine ⟨?_, ih⟩
      rw [isCallHead]
      obtain ⟨m1, _, _, _, _⟩ := tails_mirror rest
      rw [m1]
      by_cases hs : s = "crabtime"
      · subst hs
        simp only [beq_self_eq_true, Bool.true_and]
        rw [Bool.eq_false_iff]
        intro htail
        obtain ⟨j1, sp1, j2, sp2, sp3, j4, sp4, d, g, sp5, r5, hshape⟩ :=
          callTail1_shape htail
        exact h1 "crabtime" sp ':' j1 sp1 ':' j2 sp2 "output" sp3 '!' j4 sp4 d g sp5 r5
          rfl hshape
      · have hsb : (s == "crabtime") = false := beq_eq_false_iff_ne.mpr hs
        simp [hsb]
    | lit s sp =>
      rw [containsCall_cons_lit]
      simp only [Bool.or_eq_false_iff]
      exact ⟨rfl, ih⟩
    | punct c j sp =>
      rw [containsCall_cons_punct]
      simp only [Bool.or_eq_false_iff]
      exact ⟨rfl, ih⟩
    | group d g sp =>
      exact absurd rfl (h2 d g sp)
  | case5 =>
    simp [expandBuiltin, containsCall]

/-- C1: the pseudo-macro rewriter works inside out and is exhaustive: on a
stream beginning with the call pattern crabtime :: name ! (group), the
transform is applied to the recursively rewritten group interior (so nested
calls are transformed before the enclosing one) and scanning continues
after the replacement; and the stream produced by expand_output_macro
contains zero occurrences of the pseudo-macro call syntax at any nesting
depth. -/
theorem C1_rewrite_inside_out_exhaustive :
    (∀ (name : String) (f : List Tok → List Tok) (sp0 : SrcSpan) (j1 : Bool)
      (sp1 : SrcSpan) (j2 : Bool) (sp2 : SrcSpan) (sp3 : SrcSpan) (j4 : Bool)
      (sp4 : SrcSpan) (d : Delim) (g : List Tok) (sp5 : SrcSpan) (rest : List Tok),
      expandBuiltin name f
        (Tok.ident "crabtime" sp0 :: Tok.punct ':' j1 sp1 :: Tok.punct ':' j2 sp2 ::
         Tok.ident name sp3 :: Tok.punct '!' j4 sp4 :: Tok.group d g sp5 :: rest)
        = f (expandBuiltin name f g) ++ expandBuiltin name f rest) ∧
    (∀ input : List Tok, containsCall "output" (expandOutput input) = false) := by
  constructor
  · intro name f sp0 j1 sp1 j2 sp2 sp3 j4 sp4 d g sp5 rest
    rw [expandBuiltin]
    simp
  · intro input
    exact expandOutput_no_call_aux input

/-- C4 counterexample: a joint-spaced punctuation token is printed with no
separating space after it even though the next token starts well after the
previous one ended on the same line (so the retraction exception of the
claim does not apply); the claimed output with a space differs. -/
theorem C4_counterexample :
    (printTokensInternal
      [.punct '+' true ⟨⟨1, 0⟩, ⟨1, 1⟩⟩, .ident "x" ⟨⟨1, 5⟩, ⟨1, 6⟩⟩]).output
      = ['+', 'x', ' '] ∧
    (['+', 'x', ' '] : List Char) ≠ ['+', ' ', 'x', ' '] := by
  constructor
  · simp [printTokensInternal, printLoop, KEYWORDS]
  · decide

/-- C4 amended: a separating space is inserted after every token except
punctuation marked joint (emitted with no trailing space), and the
trailing-space retraction applies only at a brace-group boundary: when the
current or previous token is a brace group and the next token starts at or
before the column where the previous token ended on the same source line.
Consequently printing identifier-brace-group with adjacent spans (Name
immediately followed by the group) differs from printing them separated by
whitespace. -/
theorem C4_amended_spacing (e s : Nat) (hs : 1 ≤ s) :
    (∀ (c c2 : Char) (j2 : Bool) (sp1 sp2 : SrcSpan),
      (printTokensInternal [.punct c true sp1, .punct c2 j2 sp2]).output =
        [c, c2] ++ (if j2 then [] else [' '])) ∧
    (s - 1 ≤ e →
      (printTokensInternal
        [.ident "Name" ⟨⟨1, 0⟩, ⟨1, e⟩⟩,
         .group .brace [.ident "x" ⟨⟨1, s⟩, ⟨1, s + 1⟩⟩] ⟨⟨1, s - 1⟩, ⟨1, s + 2⟩⟩]).output
        = 'N' :: 'a' :: 'm' :: 'e' :: obr :: 'x' :: cbr :: [' ']) ∧
    (e + 1 < s →
      (printTokensInternal
        [.ident "Name" ⟨⟨1, 0⟩, ⟨1, e⟩⟩,
         .group .brace [.ident "x" ⟨⟨1, s⟩, ⟨1, s + 1⟩⟩] ⟨⟨1, s - 1⟩, ⟨1, s + 2⟩⟩]).output
        = 'N' :: 'a' :: 'm' :: 'e' :: ' ' :: obr :: 'x' :: cbr :: [' ']) ∧
    ('N' :: 'a' :: 'm' :: 'e' :: obr :: 'x' :: cbr :: [' '] ≠
     'N' :: 'a' :: 'm' :: 'e' :: ' ' :: obr :: 'x' :: cbr :: ([' '] : List Char)) := by
  refine ⟨?_, ?_, ?_, by decide⟩
  · intro c c2 j2 sp1 sp2
    cases j2 <;> simp [printTokensInternal, printLoop, KEYWORDS]
  · intro h
    simp [printTokensInternal, printLoop, KEYWORDS,
      show ('x' == obr) = false from by decide,
      show ((' ' : Char) == obr) = false from by decide]
    have hle : s ≤ e + 1 := by omega
    simp [hle]
  · intro h
    simp [printTokensInternal, printLoop, KEYWORDS,
      show ('x' == obr) = false from by decide,
      show ((' ' : Char) == obr) = false from by decide]
    have hgt : ¬ s ≤ e + 1 := by omega
    simp [hgt]

/-- C4 witness: the amended theorem applied at concrete columns, once with
adjacent spans and once with separated spans. -/
theorem C4_witness :
    (printTokensInternal
      [.ident "Name" ⟨⟨1, 0⟩, ⟨1, 4⟩⟩,
       .group .brace [.ident "x" ⟨⟨1, 5⟩, ⟨1, 6⟩⟩] ⟨⟨1, 4⟩, ⟨1, 7⟩⟩]).output
      = 'N' :: 'a' :: 'm' :: 'e' :: obr :: 'x' :: cbr :: [' '] ∧
    (printTokensInternal
      [.ident "Name" ⟨⟨1, 0⟩, ⟨1, 4⟩⟩,
       .group .brace [.ident "x" ⟨⟨1, 7⟩, ⟨1, 8⟩⟩] ⟨⟨1, 6⟩, ⟨1, 9⟩⟩]).output
      = 'N' :: 'a' :: 'm' :: 'e' :: ' ' :: obr :: 'x' :: cbr :: [' '] := by
  constructor
  · exact (C4_amended_spacing 4 5 (by decide)).2.1 (by decide)
  · exact (C4_amended_spacing 4 7 (by decide)).2.2.1 (by decide)

theorem char_toNat_ne {c d : Char} (h : c.toNat ≠ d.toNat) : c ≠ d :=
  fun he => h (he ▸ rfl)

theorem identStart_nat {c : Char} (h : identStartChar c = true) :
    65 ≤ c.toNat ∧ c.toNat ≤ 90 ∨ 97 ≤ c.toNat ∧ c.toNat ≤ 122 ∨ c.toNat = 95 := by
  simp only [identStartChar, Bool.or_eq_true, Bool.and_eq_true, decide_eq_true_eq,
    beq_iff_eq] at h
  omega

theorem identCont_nat {c : Char} (h : identContChar c = true) :
    65 ≤ c.toNat ∧ c.toNat ≤ 90 ∨ 97 ≤ c.toNat ∧ c.toNat ≤ 122 ∨ c.toNat = 95 ∨
    48 ≤ c.toNat ∧ c.toNat ≤ 57 := by
  simp only [identContChar, Bool.or_eq_true, Bool.and_eq_true, decide_eq_true_eq] at h
  rcases h with h | h
  · have := identStart_nat h
    omega
  · omega

theorem digit_nat {c : Char} (h : digitChar c = true) :
    48 ≤ c.toNat ∧ c.toNat ≤ 57 := by
  simp only [digitChar, Bool.and_eq_true, decide_eq_true_eq] at h
  exact h

theorem not_ws_of_nat {c : Char} (h : c.toNat ≠ 32 ∧ c.toNat ≠ 9 ∧ c.toNat ≠ 10 ∧
    c.toNat ≠ 13) : isWs c = false := by
  simp only [isWs, Bool.or_eq_false_iff, beq_eq_false_iff_ne, ne_eq]
  exact ⟨⟨⟨char_toNat_ne h.1, char_toNat_ne h.2.1⟩, char_toNat_ne h.2.2.1⟩,
    char_toNat_ne h.2.2.2⟩

theorem identStart_cont {c : Char} (h : identStartChar c = true) :
    identContChar c = true := by
  simp [identContChar, h]

theorem digit_cont {c : Char} (h : digitChar c = true) : identContChar c = true := by
  simp only [identContChar, digitChar] at *
  simp [h]

theorem identStart_conds {c : Char} (h : identStartChar c = true) :
    isWs c = false ∧ (c.toNat == 40) = false ∧ (c.toNat == 91) = false ∧
    (c.toNat == 123) = false ∧ (c.toNat == 41) = false ∧ (c.toNat == 93) = false ∧
    (c.toNat == 125) = false := by
  have hn := identStart_nat h
  refine ⟨not_ws_of_nat (by omega), ?_, ?_, ?_, ?_, ?_, ?_⟩ <;>
    (simp only [beq_eq_false_iff_ne, ne_eq]; omega)

theorem digit_conds {c : Char} (h : digitChar c = true) :
    isWs c = false ∧ (c.toNat == 40) = false ∧ (c.toNat == 91) = false ∧
    (c.toNat == 123) = false ∧ (c.toNat == 41) = false ∧ (c.toNat == 93) = false ∧
    (c.toNat == 125) = false ∧ identStartChar c = false := by
  have hn := digit_nat h
  refine ⟨not_ws_of_nat (by omega), ?_, ?_, ?_, ?_, ?_, ?_, ?_⟩
  · simp only [beq_eq_false_iff_ne, ne_eq]; omega
  · simp only [beq_eq_false_iff_ne, ne_eq]; omega
  · simp only [beq_eq_false_iff_ne, ne_eq]; omega
  · simp only [beq_eq_false_iff_ne, ne_eq]; omega
  · simp only [beq_eq_false_iff_ne, ne_eq]; omega
  · simp only [beq_eq_false_iff_ne, ne_eq]; omega
  · simp only [identStartChar, Bool.or_eq_false_iff, Bool.and_eq_false_iff,
      decide_eq_false_iff_not, beq_eq_false_iff_ne, ne_eq, not_le]
    omega

theorem punct_conds {c : Char} (h : punctChar c = true) :
    isWs c = false ∧ (c.toNat == 40) = false ∧ (c.toNat == 91) = false ∧
    (c.toNat == 123) = false ∧ (c.toNat == 41) = false ∧ (c.toNat == 93) = false ∧
    (c.toNat == 125) = false ∧ identStartChar c = false ∧ digitChar c = false := by
  simp only [punctChar, Bool.and_eq_true, Bool.not_eq_true', bne_iff_ne, ne_eq] at h
  obtain ⟨⟨⟨⟨⟨⟨⟨hws, hic⟩, h40⟩, h41⟩, h91⟩, h93⟩, h123⟩, h125⟩ := h
  have hstart : identStartChar c = false := by
    cases hs : identStartChar c
    · rfl
    · rw [identStart_cont hs] at hic
      exact Bool.noConfusion hic
  have hdig : digitChar c = false := by
    cases hd : digitChar c
    · rfl
    · rw [digit_cont hd] at hic
      exact Bool.noConfusion hic
  refine ⟨hws, ?_, ?_, ?_, ?_, ?_, ?_, hstart, hdig⟩ <;>
    (simp only [beq_eq_false_iff_ne, ne_eq]; omega)

theorem lexLoop_nil_nil (acc : List Tok) : lexLoop [] acc [] = some acc.reverse := by
  rw [lexLoop.eq_def]

theorem lexLoop_ws {c : Char} (h : isWs c = true) (cs : List Char) (acc : List Tok)
    (stack : List (Delim × List Tok)) :
    lexLoop (c :: cs) acc stack = lexLoop cs acc stack := by
  rw [lexLoop.eq_def]
  simp [h]

theorem lexLoop_space (cs : List Char) (acc : List Tok)
    (stack : List (Delim × List Tok)) :
    lexLoop (' ' :: cs) acc stack = lexLoop cs acc stack :=
  lexLoop_ws (by decide) cs acc stack

theorem lexLoop_open_paren (cs : List Char) (acc : List Tok)
    (stack : List (Delim × List Tok)) :
    lexLoop ('(' :: cs) acc stack = lexLoop cs [] ((Delim.paren, acc) :: stack) := by
  rw [lexLoop.eq_def]
  simp [show isWs '(' = false from by decide]

theorem lexLoop_open_bracket (cs : List Char) (acc : List Tok)
    (stack : List (Delim × List Tok)) :
    lexLoop ('[' :: cs) acc stack = lexLoop cs [] ((Delim.bracket, acc) :: stack) := by
  rw [lexLoop.eq_def]
  simp [show isWs '[' = false from by decide]

theorem lexLoop_close_paren (cs : List Char) (acc acc0 : List Tok)
    (stack0 : List (Delim × List Tok)) :
    lexLoop (')' :: cs) acc ((Delim.paren, acc0) :: stack0) =
      lexLoop cs (.group .paren acc.reverse dummySpan :: acc0) stack0 := by
  rw [lexLoop.eq_def]
  simp [show isWs ')' = false from by decide]

theorem lexLoop_close_bracket (cs : List Char) (acc acc0 : List Tok)
    (stack0 : List (Delim × List Tok)) :
    lexLoop (']' :: cs) acc ((Delim.bracket, acc0) :: stack0) =
      lexLoop cs (.group .bracket acc.reverse dummySpan :: acc0) stack0 := by
  rw [lexLoop.eq_def]
  simp [show isWs ']' = false from by decide]

theorem lexLoop_identStart {c : Char} (h : identStartChar c = true) (cs : List Char)
    (acc : List Tok) (stack : List (Delim × List Tok)) :
    lexLoop (c :: cs) acc stack =
      lexLoop (cs.dropWhile identContChar)
        (.ident (String.mk (c :: cs.takeWhile identContChar)) dummySpan :: acc)
        stack := by
  obtain ⟨h1, h2, h3, h4, h5, h6, h7⟩ := identStart_conds h
  rw [lexLoop.eq_def]
  simp [h1, h2, h3, h4, h5, h6, h7, h]

theorem lexLoop_digit {c : Char} (h : digitChar c = true) (cs : List Char)
    (acc : List Tok) (stack : List (Delim × List Tok)) :
    lexLoop (c :: cs) acc stack =
      lexLoop (cs.dropWhile digitChar)
        (.lit (String.mk (c :: cs.takeWhile digitChar)) dummySpan :: acc) stack := by
  obtain ⟨h1, h2, h3, h4, h5, h6, h7, h8⟩ := digit_conds h
  rw [lexLoop.eq_def]
  simp [h1, h2, h3, h4, h5, h6, h7, h8, h]

theorem lexLoop_punct {c : Char} (h : punctChar c = true) (cs : List Char)
    (acc : List Tok) (stack : List (Delim × List Tok)) :
    lexLoop (c :: cs) acc stack =
      lexLoop cs (.punct c false dummySpan :: acc) stack := by
  obtain ⟨h1, h2, h3, h4, h5, h6, h7, h8, h9⟩ := punct_conds h
  rw [lexLoop.eq_def]
  simp [h1, h2, h3, h4, h5, h6, h7, h8, h9]

theorem takeWhile_run {p : Char → Bool} {a X : List Char}
    (ha : ∀ c ∈ a, p c = true) (hX : ∀ x xs, X = x :: xs → p x = false) :
    (a ++ X).takeWhile p = a ∧ (a ++ X).dropWhile p = X := by
  induction a with
  | nil =>
    cases X with
    | nil => exact ⟨rfl, rfl⟩
    | cons x xs =>
      have := hX x xs rfl
      simp [List.takeWhile_cons, List.dropWhile_cons, this]
  | cons c a ih =>
    have hc : p c = true := ha c (List.mem_cons_self _ _)
    have ih2 := ih fun d hd => ha d (List.mem_cons_of_mem _ hd)
    simp [List.takeWhile_cons, List.dropWhile_cons, hc, ih2.1, ih2.2]

theorem wfStream_cons_ident (s : String) (sp : SrcSpan) (r : List Tok) :
    wfStream (.ident s sp :: r) = (wfIdentStr s && wfStream r) := by
  rw [wfStream]

theorem wfStream_cons_lit (s : String) (sp : SrcSpan) (r : List Tok) :
    wfStream (.lit s sp :: r) = (wfLitStr s && wfStream r) := by
  rw [wfStream]

theorem wfStream_cons_punct (c : Char) (j : Bool) (sp : SrcSpan) (r : List Tok) :
    wfStream (.punct c j sp :: r) =
      (punctChar c && (!j || headIsPunct r) && wfStream r) := by
  rw [wfStream]

theorem wfStream_cons_group (d : Delim) (ts : List Tok) (sp : SrcSpan) (r : List Tok) :
    wfStream (.group d ts sp :: r) =
      ((d == .paren || d == .bracket) && wfStream ts && wfStream r) := by
  rw [wfStream]

theorem wfStream_tail {t : Tok} {r : List Tok} (h : wfStream (t :: r) = true) :
    wfStream r = true := by
  cases t with
  | ident s sp =>
    rw [wfStream_cons_ident, Bool.and_eq_true] at h
    exact h.2
  | lit s sp =>
    rw [wfStream_cons_lit, Bool.and_eq_true] at h
    exact h.2
  | punct c j sp =>
    rw [wfStream_cons_punct, Bool.and_eq_true] at h
    exact h.2
  | group d ts sp =>
    rw [wfStream_cons_group, Bool.and_eq_true] at h
    exact h.2

theorem renderStream_nil : renderStream [] = [] := by
  rw [renderStream.eq_def]

theorem renderStream_cons (t : Tok) (r : List Tok) :
    renderStream (t :: r) = renderTok t ++ renderStream r := by
  rw [renderStream.eq_def]

theorem renderTok_ident (s : String) (sp : SrcSpan) :
    renderTok (.ident s sp) =
      (if KEYWORDS.contains s then [' '] else []) ++ s.data ++ [' '] ++
        (if KEYWORDS.contains s then [' '] else []) := by
  rw [renderTok.eq_def]

theorem renderTok_lit (s : String) (sp : SrcSpan) :
    renderTok (.lit s sp) = s.data ++ [' '] := by
  rw [renderTok.eq_def]

theorem renderTok_punct (c : Char) (j : Bool) (sp : SrcSpan) :
    renderTok (.punct c j sp) = [c] ++ (if j then [] else [' ']) := by
  rw [renderTok.eq_def]

theorem renderTok_group (d : Delim) (ts : List Tok) (sp : SrcSpan) :
    renderTok (.group d ts sp) =
      (match d with
       | .brace => ([obr], [cbr])
       | .paren => (['('], [')'])
       | .bracket => (['['], [']'])
       | .noneDelim => (([] : List Char), ([] : List Char))).1 ++
      (renderStream ts).dropLast ++
      (match d with
       | .brace => ([obr], [cbr])
       | .paren => (['('], [')'])
       | .bracket => (['['], [']'])
       | .noneDelim => (([] : List Char), ([] : List Char))).2 ++ [' '] := by
  rw [renderTok.eq_def]

theorem eraseStream_nil : eraseStream [] = [] := by
  rw [eraseStream.eq_def]

theorem eraseStream_cons (t : Tok) (r : List Tok) :
    eraseStream (t :: r) = eraseTok t :: eraseStream r := by
  rw [eraseStream.eq_def]

theorem eraseTok_ident (s : String) (sp : SrcSpan) :
    eraseTok (.ident s sp) = .ident s dummySpan := by
  rw [eraseTok.eq_def]

theorem eraseTok_lit (s : String) (sp : SrcSpan) :
    eraseTok (.lit s sp) = .lit s dummySpan := by
  rw [eraseTok.eq_def]

theorem eraseTok_punct (c : Char) (j : Bool) (sp : SrcSpan) :
    eraseTok (.punct c j sp) = .punct c false dummySpan := by
  rw [eraseTok.eq_def]

theorem eraseTok_group (d : Delim) (ts : List Tok) (sp : SrcSpan) :
    eraseTok (.group d ts sp) = .group d (eraseStream ts) dummySpan := by
  rw [eraseTok.eq_def]

theorem string_mk_data (s : String) : String.mk s.data = s := rfl

theorem renderTok_ne_nil (t : Tok) : renderTok t ≠ [] := by
  cases t with
  | ident s sp =>
    rw [renderTok_ident]
    cases KEYWORDS.contains s <;> simp
  | lit s sp =>
    rw [renderTok_lit]
    simp
  | punct c j sp =>
    rw [renderTok_punct]
    simp
  | group d ts sp =>
    rw [renderTok_group]
    cases d <;> simp

theorem renderStream_last_space (ts : List Tok) (hwf : wfStream ts = true)
    (hne : ts ≠ []) : ∃ b, renderStream ts = b ++ [' '] := by
  induction ts with
  | nil => exact absurd rfl hne
  | cons t r ih =>
    cases r with
    | nil =>
      rw [renderStream_cons, renderStream_nil, List.append_nil]
      cases t with
      | ident s sp =>
        rw [renderTok_ident]
        cases KEYWORDS.contains s
        · simp
        · exact ⟨' ' :: s.data ++ [' '], by simp⟩
      | lit s sp =>
        rw [renderTok_lit]
        exact ⟨s.data, rfl⟩
      | punct c j sp =>
        rw [wfStream_cons_punct] at hwf
        simp only [Bool.and_eq_true] at hwf
        cases j with
        | false =>
          rw [renderTok_punct]
          exact ⟨[c], rfl⟩
        | true => simp [headIsPunct] at hwf
      | group d ts2 sp =>
        rw [renderTok_group]
        cases d with
        | brace => exact ⟨obr :: (renderStream ts2).dropLast ++ [cbr], by simp⟩
        | paren => exact ⟨'(' :: (renderStream ts2).dropLast ++ [')'], by simp⟩
        | bracket => exact ⟨'[' :: (renderStream ts2).dropLast ++ [']'], by simp⟩
        | noneDelim => exact ⟨(renderStream ts2).dropLast, by simp⟩
    | cons t2 r2 =>
      have hwf2 : wfStream (t2 :: r2) = true := wfStream_tail hwf
      obtain ⟨b, hb⟩ := ih hwf2 (by simp)
      rw [renderStream_cons, hb]
      exact ⟨renderTok t ++ b, by simp⟩


theorem tok_sizeOf_pos (t : Tok) : 0 < sizeOf t := by
  cases t <;> simp_arith

theorem printLoop_renders (n : Nat) : ∀ (ts : List Tok) (out : List Char)
    (fs pe : Option LineCol), sizeOf ts ≤ n → wfStream ts = true →
    (printLoop ts out fs pe false).output = out ++ renderStream ts := by
  induction n with
  | zero =>
    intro ts out fs pe hsz _
    exact absurd hsz (by cases ts <;> simp)
  | succ n ih =>
    intro ts out fs pe hsz hwf
    cases ts with
    | nil =>
      rw [printLoop.eq_def, renderStream_nil]
      simp
    | cons t rest =>
      have hwfr : wfStream rest = true := wfStream_tail hwf
      have hszr : sizeOf rest ≤ n := by
        have hc : sizeOf (t :: rest) = 1 + sizeOf t + sizeOf rest := by
          simp_arith
        have ht := tok_sizeOf_pos t
        omega
      rw [renderStream_cons]
      cases t with
      | ident s sp =>
        rw [printLoop.eq_def]
        simp only []
        rw [ih rest _ _ _ hszr hwfr]
        rw [renderTok_ident]
        cases hkw : KEYWORDS.contains s <;> simp [hkw]
      | lit s sp =>
        rw [printLoop.eq_def]
        simp only []
        rw [ih rest _ _ _ hszr hwfr]
        rw [renderTok_lit]
        simp
      | punct c j sp =>
        rw [printLoop.eq_def]
        simp only []
        rw [ih rest _ _ _ hszr hwfr]
        rw [renderTok_punct]
        cases j <;> simp
      | group d g sp =>
        have h3 := hwf
        rw [wfStream_cons_group, Bool.and_eq_true, Bool.and_eq_true] at h3
        obtain ⟨⟨hd, hg⟩, hr⟩ := h3
        have hszg : sizeOf g ≤ n := by
          have hc : sizeOf (Tok.group d g sp :: rest) =
              1 + (1 + sizeOf d + sizeOf g + sizeOf sp) + sizeOf rest := by
            simp_arith
          omega
        rcases hcont : printLoop g [] none none false with ⟨co, cs1, ce1⟩
        have hco : co = renderStream g := by
          have h := ih g [] none none hszg hg
          rw [hcont] at h
          simpa using h
        rw [printLoop.eq_def]
        simp only [hcont]
        cases d with
        | paren =>
          rw [renderTok_group]
          simp only []
          rw [ih rest _ _ _ hszr hwfr, hco]
          simp
        | bracket =>
          rw [renderTok_group]
          simp only []
          rw [ih rest _ _ _ hszr hwfr, hco]
          simp
        | brace => simp at hd
        | noneDelim => simp at hd

theorem replaceSub_id (p : Char) (ps rep : List Char) : ∀ cs : List Char,
    p ∉ cs → replaceSub p ps rep cs = cs := by
  intro cs
  induction cs with
  | nil =>
    intro _
    rw [replaceSub]
  | cons c cs ih =>
    intro h
    have hpre : (p :: ps).isPrefixOf (c :: cs) = false := by
      cases hp : (p :: ps).isPrefixOf (c :: cs)
      · rfl
      · rcases List.isPrefixOf_iff_prefix.mp hp with ⟨u, hu⟩
        rw [List.cons_append, List.cons.injEq] at hu
        exact absurd (hu.1 ▸ List.mem_cons_self c cs) h
    rw [replaceSub.eq_def]
    simp only [hpre]
    simp [ih (fun hm => h (List.mem_cons_of_mem _ hm))]

theorem wfIdentStr_chars {s : String} (h : wfIdentStr s = true) :
    ∀ c ∈ s.data, identContChar c = true := by
  intro c hc
  unfold wfIdentStr at h
  cases hs : s.data with
  | nil => rw [hs] at hc; simp at hc
  | cons c0 cs =>
    rw [hs] at h
    simp only [Bool.and_eq_true] at h
    rw [hs] at hc
    rcases List.mem_cons.mp hc with rfl | hm
    · exact identStart_cont h.1
    · exact List.all_eq_true.mp h.2 c hm

theorem wfLitStr_chars {s : String} (h : wfLitStr s = true) :
    ∀ c ∈ s.data, digitChar c = true := by
  intro c hc
  unfold wfLitStr at h
  cases hs : s.data with
  | nil => rw [hs] at hc; simp at hc
  | cons c0 cs =>
    rw [hs] at h
    simp only [Bool.and_eq_true] at h
    rw [hs] at hc
    rcases List.mem_cons.mp hc with rfl | hm
    · exact h.1
    · exact List.all_eq_true.mp h.2 c hm

theorem identCont_not_brace {c : Char} (h : identContChar c = true) :
    c ≠ obr ∧ c ≠ cbr := by
  have hn := identCont_nat h
  exact ⟨char_toNat_ne (by rw [show obr.toNat = 123 from rfl]; omega),
    char_toNat_ne (by rw [show cbr.toNat = 125 from rfl]; omega)⟩

theorem digit_not_brace {c : Char} (h : digitChar c = true) :
    c ≠ obr ∧ c ≠ cbr := by
  have hn := digit_nat h
  exact ⟨char_toNat_ne (by rw [show obr.toNat = 123 from rfl]; omega),
    char_toNat_ne (by rw [show cbr.toNat = 125 from rfl]; omega)⟩

theorem punct_not_brace {c : Char} (h : punctChar c = true) :
    c ≠ obr ∧ c ≠ cbr := by
  obtain ⟨_, _, _, h123, _, _, h125, _, _⟩ := punct_conds h
  simp only [beq_eq_false_iff_ne, ne_eq] at h123 h125
  exact ⟨char_toNat_ne (by rw [show obr.toNat = 123 from rfl]; omega),
    char_toNat_ne (by rw [show cbr.toNat = 125 from rfl]; omega)⟩

theorem renderStream_no_brace (n : Nat) : ∀ ts : List Tok, sizeOf ts ≤ n →
    wfStream ts = true → obr ∉ renderStream ts ∧ cbr ∉ renderStream ts := by
  induction n with
  | zero =>
    intro ts hsz _
    exact absurd hsz (by cases ts <;> simp)
  | succ n ih =>
    intro ts hsz hwf
    cases ts with
    | nil =>
      rw [renderStream_nil]
      simp
    | cons t rest =>
      have hwfr : wfStream rest = true := wfStream_tail hwf
      have hszr : sizeOf rest ≤ n := by
        have hc : sizeOf (t :: rest) = 1 + sizeOf t + sizeOf rest := by simp_arith
        have ht := tok_sizeOf_pos t
        omega
      obtain ⟨ihr1, ihr2⟩ := ih rest hszr hwfr
      rw [renderStream_cons]
      have htok : obr ∉ renderTok t ∧ cbr ∉ renderTok t := by
        cases t with
        | ident s sp =>
          have h3 := hwf
          rw [wfStream_cons_ident, Bool.and_eq_true] at h3
          rw [renderTok_ident]
          constructor <;>
          · intro hm
            simp only [List.mem_append, List.mem_singleton] at hm
            rcases hm with ((hm | hm) | hm) | hm
            · split at hm <;> simp at hm <;> exact absurd hm.symm (by decide)
            · rcases identCont_not_brace (wfIdentStr_chars h3.1 _ hm) with ⟨hb1, hb2⟩
              first
                | exact hb1 rfl
                | exact hb2 rfl
            · exact absurd hm (by decide)
            · split at hm <;> simp at hm <;> exact absurd hm.symm (by decide)
        | lit s sp =>
          have h3 := hwf
          rw [wfStream_cons_lit, Bool.and_eq_true] at h3
          rw [renderTok_lit]
          constructor <;>
          · intro hm
            simp only [List.mem_append, List.mem_singleton] at hm
            rcases hm with hm | hm
            · rcases digit_not_brace (wfLitStr_chars h3.1 _ hm) with ⟨hb1, hb2⟩
              first
                | exact hb1 rfl
                | exact hb2 rfl
            · exact absurd hm (by decide)
        | punct c j sp =>
          have h3 := hwf
          rw [wfStream_cons_punct, Bool.and_eq_true, Bool.and_eq_true] at h3
          rw [renderTok_punct]
          rcases punct_not_brace h3.1.1 with ⟨hb1, hb2⟩
          constructor <;>
          · intro hm
            simp only [List.mem_append, List.mem_singleton] at hm
            rcases hm with hm | hm
            · first
                | exact hb1 hm.symm
                | exact hb2 hm.symm
            · split at hm <;> simp at hm <;> exact absurd hm.symm (by decide)
        | group d g sp =>
          have h3 := hwf
          rw [wfStream_cons_group, Bool.and_eq_true, Bool.and_eq_true] at h3
          obtain ⟨⟨hd, hg⟩, _⟩ := h3
          have hszg : sizeOf g ≤ n := by
            have hc : sizeOf (Tok.group d g sp :: rest) =
                1 + (1 + sizeOf d + sizeOf g + sizeOf sp) + sizeOf rest := by
              simp_arith
            omega
          obtain ⟨ihg1, ihg2⟩ := ih g hszg hg
          have hsub : ∀ c, c ∈ (renderStream g).dropLast → c ∈ renderStream g :=
            fun c hc => (List.dropLast_sublist _).subset hc
          rw [renderTok_group]
          cases d with
          | brace => simp at hd
          | noneDelim => simp at hd
          | paren =>
            constructor <;>
            · intro hm
              simp only [List.mem_append, List.mem_singleton] at hm
              rcases hm with ((hm | hm) | hm) | hm
              · exact absurd hm (by decide)
              · first
                  | exact ihg1 (hsub _ hm)
                  | exact ihg2 (hsub _ hm)
              · exact absurd hm (by decide)
              · exact absurd hm (by decide)
          | bracket =>
            constructor <;>
            · intro hm
              simp only [List.mem_append, List.mem_singleton] at hm
              rcases hm with ((hm | hm) | hm) | hm
              · exact absurd hm (by decide)
              · first
                  | exact ihg1 (hsub _ hm)
                  | exact ihg2 (hsub _ hm)
              · exact absurd hm (by decide)
              · exact absurd hm (by decide)
      constructor <;>
      · intro hm
        rcases List.mem_append.mp hm with hm | hm
        · first
            | exact htok.1 hm
            | exact htok.2 hm
        · first
            | exact ihr1 hm
            | exact ihr2 hm

theorem printTokensText_eq_render (ts : List Tok) (hwf : wfStream ts = true) :
    printTokensText ts = renderStream ts := by
  unfold printTokensText printTokensInternal
  have h0 : (printLoop ts [] none none false).output = renderStream ts := by
    simpa using printLoop_renders (sizeOf ts) ts [] none none (le_refl _) hwf
  obtain ⟨hob, hcb⟩ := renderStream_no_brace (sizeOf ts) ts (le_refl _) hwf
  simp only [h0, replaceSub_id _ _ _ _ hob, replaceSub_id _ _ _ _ hcb]

theorem boundary_head {rest : List Char} (hb : lexBoundary rest) :
    ∀ x xs, rest = x :: xs → identContChar x = false := by
  intro x xs hx
  rcases hb with rfl | ⟨c, cs, rfl, hc⟩
  · exact absurd hx (by simp)
  · rw [List.cons.injEq] at hx
    rw [← hx.1]
    exact hc

theorem space_boundary : ∀ x xs, (' ' :: Y : List Char) = x :: xs →
    identContChar x = false := by
  intro x xs hx
  rw [List.cons.injEq] at hx
  rw [← hx.1]
  decide

theorem consume_ident (s : String) (sp : SrcSpan) (hid : wfIdentStr s = true)
    (Y : List Char) (acc2 : List Tok) (stack2 : List (Delim × List Tok)) :
    lexLoop (renderTok (.ident s sp) ++ Y) acc2 stack2 =
      lexLoop Y (eraseTok (.ident s sp) :: acc2) stack2 := by
  rw [renderTok_ident, eraseTok_ident]
  rcases hsdata : s.data with _ | ⟨c0, ctail⟩
  · unfold wfIdentStr at hid
    rw [hsdata] at hid
    exact Bool.noConfusion hid
  · have hid2 := hid
    unfold wfIdentStr at hid2
    rw [hsdata] at hid2
    simp only [Bool.and_eq_true] at hid2
    have hstart : identStartChar c0 = true := hid2.1
    have hall : ∀ c ∈ ctail, identContChar c = true := List.all_eq_true.mp hid2.2
    have hmk : String.mk (c0 :: ctail) = s := by rw [← hsdata, string_mk_data]
    cases hkw : KEYWORDS.contains s with
    | false =>
      simp only [hkw, hsdata,
        show (if (false = true) then ([' '] : List Char) else []) = [] from rfl,
        List.nil_append, List.append_nil, List.cons_append, List.append_assoc]
      rw [lexLoop_identStart hstart]
      obtain ⟨ht, hd⟩ := takeWhile_run (p := identContChar) (a := ctail)
        (X := ' ' :: Y) hall space_boundary
      rw [ht, hd, hmk, lexLoop_space]
    | true =>
      simp only [hkw, hsdata,
        show (if (true = true) then ([' '] : List Char) else []) = [' '] from rfl,
        show (if True then ([' '] : List Char) else []) = [' '] from rfl,
        List.cons_append, List.append_assoc, List.singleton_append, List.nil_append]
      rw [lexLoop_space]
      rw [lexLoop_identStart hstart]
      obtain ⟨ht, hd⟩ := takeWhile_run (p := identContChar) (a := ctail)
        (X := ' ' :: (' ' :: Y)) hall space_boundary
      rw [ht, hd, hmk, lexLoop_space, lexLoop_space]

theorem consume_lit (s : String) (sp : SrcSpan) (hl : wfLitStr s = true)
    (Y : List Char) (acc2 : List Tok) (stack2 : List (Delim × List Tok)) :
    lexLoop (renderTok (.lit s sp) ++ Y) acc2 stack2 =
      lexLoop Y (eraseTok (.lit s sp) :: acc2) stack2 := by
  rw [renderTok_lit, eraseTok_lit]
  rcases hsdata : s.data with _ | ⟨c0, ctail⟩
  · unfold wfLitStr at hl
    rw [hsdata] at hl
    exact Bool.noConfusion hl
  · have hl2 := hl
    unfold wfLitStr at hl2
    rw [hsdata] at hl2
    simp only [Bool.and_eq_true] at hl2
    have hall : ∀ c ∈ ctail, digitChar c = true := List.all_eq_true.mp hl2.2
    have hmk : String.mk (c0 :: ctail) = s := by rw [← hsdata, string_mk_data]
    simp only [hsdata, List.cons_append, List.append_assoc, List.singleton_append,
      List.nil_append]
    rw [lexLoop_digit hl2.1]
    obtain ⟨ht, hd⟩ := takeWhile_run (p := digitChar) (a := ctail)
      (X := ' ' :: Y) hall (by
        intro x xs hx
        rw [List.cons.injEq] at hx
        rw [← hx.1]
        decide)
    rw [ht, hd, hmk, lexLoop_space]

theorem consume_punct (c : Char) (j : Bool) (sp : SrcSpan) (hpc : punctChar c = true)
    (Y : List Char) (acc2 : List Tok) (stack2 : List (Delim × List Tok)) :
    lexLoop (renderTok (.punct c j sp) ++ Y) acc2 stack2 =
      lexLoop Y (eraseTok (.punct c j sp) :: acc2) stack2 := by
  rw [renderTok_punct, eraseTok_punct]
  cases j with
  | false =>
    simp only [show (if false then ([] : List Char) else [' ']) = [' '] from rfl,
      List.cons_append, List.singleton_append, List.nil_append, List.append_assoc]
    rw [lexLoop_punct hpc, lexLoop_space]
  | true =>
    simp only [show (if true then ([] : List Char) else [' ']) = [] from rfl,
      show (if True then ([] : List Char) else [' ']) = [] from rfl,
      List.append_nil, List.cons_append, List.nil_append, List.append_assoc]
    rw [lexLoop_punct hpc]

theorem consume_group (d : Delim) (g : List Tok) (sp : SrcSpan)
    (hd : (d == Delim.paren || d == Delim.bracket) = true)
    (ihg : ∀ (rest : List Char) (acc : List Tok) (stack : List (Delim × List Tok)),
      lexBoundary rest →
      lexLoop ((renderStream g).dropLast ++ rest) acc stack =
        lexLoop rest ((eraseStream g).reverse ++ acc) stack)
    (Y : List Char) (acc2 : List Tok) (stack2 : List (Delim × List Tok)) :
    lexLoop (renderTok (.group d g sp) ++ Y) acc2 stack2 =
      lexLoop Y (eraseTok (.group d g sp) :: acc2) stack2 := by
  rw [renderTok_group, eraseTok_group]
  cases d with
  | brace => simp at hd
  | noneDelim => simp at hd
  | paren =>
    simp only [List.cons_append, List.append_assoc, List.singleton_append,
      List.nil_append]
    rw [lexLoop_open_paren]
    rw [ihg (')' :: (' ' :: Y)) [] ((Delim.paren, acc2) :: stack2)
      (Or.inr ⟨')', ' ' :: Y, rfl, by decide⟩)]
    rw [lexLoop_close_paren, lexLoop_space]
    simp
  | bracket =>
    simp only [List.cons_append, List.append_assoc, List.singleton_append,
      List.nil_append]
    rw [lexLoop_open_bracket]
    rw [ihg (']' :: (' ' :: Y)) [] ((Delim.bracket, acc2) :: stack2)
      (Or.inr ⟨']', ' ' :: Y, rfl, by decide⟩)]
    rw [lexLoop_close_bracket, lexLoop_space]
    simp

theorem chopped_ident (s : String) (sp : SrcSpan) (hid : wfIdentStr s = true)
    {Y : List Char} (hb : lexBoundary Y) (acc2 : List Tok)
    (stack2 : List (Delim × List Tok)) :
    lexLoop ((renderTok (.ident s sp)).dropLast ++ Y) acc2 stack2 =
      lexLoop Y (eraseTok (.ident s sp) :: acc2) stack2 := by
  rw [renderTok_ident, eraseTok_ident]
  rcases hsdata : s.data with _ | ⟨c0, ctail⟩
  · unfold wfIdentStr at hid
    rw [hsdata] at hid
    exact Bool.noConfusion hid
  · have hid2 := hid
    unfold wfIdentStr at hid2
    rw [hsdata] at hid2
    simp only [Bool.and_eq_true] at hid2
    have hall : ∀ c ∈ ctail, identContChar c = true := List.all_eq_true.mp hid2.2
    have hmk : String.mk (c0 :: ctail) = s := by rw [← hsdata, string_mk_data]
    cases hkw : KEYWORDS.contains s with
    | false =>
      simp only [hkw, hsdata,
        show (if (false = true) then ([' '] : List Char) else []) = [] from rfl,
        List.nil_append, List.append_nil]
      rw [show (c0 :: ctail) ++ [' '] = (c0 :: ctail) ++ [' '] from rfl,
        List.dropLast_concat]
      simp only [List.cons_append]
      rw [lexLoop_identStart hid2.1]
      obtain ⟨ht, hd⟩ := takeWhile_run (p := identContChar) (a := ctail)
        (X := Y) hall (boundary_head hb)
      rw [ht, hd, hmk]
    | true =>
      simp only [hkw, hsdata,
        show (if (true = true) then ([' '] : List Char) else []) = [' '] from rfl,
        show (if True then ([' '] : List Char) else []) = [' '] from rfl,
        List.nil_append, List.append_nil]
      rw [show ([' '] ++ (c0 :: ctail) ++ [' '] ++ [' '] : List Char) =
        ([' '] ++ (c0 :: ctail) ++ [' ']) ++ [' '] from by simp,
        List.dropLast_concat]
      simp only [List.cons_append, List.singleton_append, List.append_assoc]
      rw [lexLoop_space]
      simp only [List.nil_append]
      rw [lexLoop_identStart hid2.1]
      obtain ⟨ht, hd⟩ := takeWhile_run (p := identContChar) (a := ctail)
        (X := ' ' :: Y) hall space_boundary
      rw [ht, hd, hmk, lexLoop_space]

theorem chopped_lit (s : String) (sp : SrcSpan) (hl : wfLitStr s = true)
    {Y : List Char} (hb : lexBoundary Y) (acc2 : List Tok)
    (stack2 : List (Delim × List Tok)) :
    lexLoop ((renderTok (.lit s sp)).dropLast ++ Y) acc2 stack2 =
      lexLoop Y (eraseTok (.lit s sp) :: acc2) stack2 := by
  rw [renderTok_lit, eraseTok_lit]
  rcases hsdata : s.data with _ | ⟨c0, ctail⟩
  · unfold wfLitStr at hl
    rw [hsdata] at hl
    exact Bool.noConfusion hl
  · have hl2 := hl
    unfold wfLitStr at hl2
    rw [hsdata] at hl2
    simp only [Bool.and_eq_true] at hl2
    have hall : ∀ c ∈ ctail, digitChar c = true := List.all_eq_true.mp hl2.2
    have hmk : String.mk (c0 :: ctail) = s := by rw [← hsdata, string_mk_data]
    rw [List.dropLast_concat]
    simp only [List.cons_append]
    rw [lexLoop_digit hl2.1]
    obtain ⟨ht, hd⟩ := takeWhile_run (p := digitChar) (a := ctail)
      (X := Y) hall (by
        intro x xs hx
        have hic := boundary_head hb x xs hx
        cases hdc : digitChar x
        · rfl
        · rw [digit_cont hdc] at hic
          exact Bool.noConfusion hic)
    rw [ht, hd, hmk]

theorem chopped_punct_alone (c : Char) (sp : SrcSpan) (hpc : punctChar c = true)
    (Y : List Char) (acc2 : List Tok) (stack2 : List (Delim × List Tok)) :
    lexLoop ((renderTok (.punct c false sp)).dropLast ++ Y) acc2 stack2 =
      lexLoop Y (eraseTok (.punct c false sp) :: acc2) stack2 := by
  rw [renderTok_punct, eraseTok_punct]
  simp only [show (if false then ([] : List Char) else [' ']) = [' '] from rfl]
  rw [List.dropLast_concat]
  simp only [List.singleton_append]
  rw [lexLoop_punct hpc]

theorem chopped_group (d : Delim) (g : List Tok) (sp : SrcSpan)
    (hd : (d == Delim.paren || d == Delim.bracket) = true)
    (ihg : ∀ (rest : List Char) (acc : List Tok) (stack : List (Delim × List Tok)),
      lexBoundary rest →
      lexLoop ((renderStream g).dropLast ++ rest) acc stack =
        lexLoop rest ((eraseStream g).reverse ++ acc) stack)
    (Y : List Char) (acc2 : List Tok) (stack2 : List (Delim × List Tok)) :
    lexLoop ((renderTok (.group d g sp)).dropLast ++ Y) acc2 stack2 =
      lexLoop Y (eraseTok (.group d g sp) :: acc2) stack2 := by
  rw [renderTok_group, eraseTok_group]
  cases d with
  | brace => simp at hd
  | noneDelim => simp at hd
  | paren =>
    rw [show (['('] ++ (renderStream g).dropLast ++ [')'] ++ [' '] : List Char) =
      (['('] ++ (renderStream g).dropLast ++ [')']) ++ [' '] from by simp,
      List.dropLast_concat]
    simp only [List.cons_append, List.append_assoc, List.singleton_append,
      List.nil_append]
    rw [lexLoop_open_paren]
    rw [ihg (')' :: Y) [] ((Delim.paren, acc2) :: stack2)
      (Or.inr ⟨')', Y, rfl, by decide⟩)]
    rw [lexLoop_close_paren]
    simp
  | bracket =>
    rw [show (['['] ++ (renderStream g).dropLast ++ [']'] ++ [' '] : List Char) =
      (['['] ++ (renderStream g).dropLast ++ [']']) ++ [' '] from by simp,
      List.dropLast_concat]
    simp only [List.cons_append, List.append_assoc, List.singleton_append,
      List.nil_append]
    rw [lexLoop_open_bracket]
    rw [ihg (']' :: Y) [] ((Delim.bracket, acc2) :: stack2)
      (Or.inr ⟨']', Y, rfl, by decide⟩)]
    rw [lexLoop_close_bracket]
    simp

theorem glue_full (t : Tok) (ts2 : List Tok) (rest : List Char) (acc : List Tok)
    (stack : List (Delim × List Tok))
    (hcons : ∀ (Y : List Char) (acc2 : List Tok) (stack2 : List (Delim × List Tok)),
      lexLoop (renderTok t ++ Y) acc2 stack2 = lexLoop Y (eraseTok t :: acc2) stack2)
    (ihfull : lexLoop (renderStream ts2 ++ rest) (eraseTok t :: acc) stack =
      lexLoop rest ((eraseStream ts2).reverse ++ (eraseTok t :: acc)) stack) :
    lexLoop (renderStream (t :: ts2) ++ rest) acc stack =
      lexLoop rest ((eraseStream (t :: ts2)).reverse ++ acc) stack := by
  rw [renderStream_cons, List.append_assoc, hcons, ihfull, eraseStream_cons]
  simp [List.append_assoc]

theorem glue_chopped (t t2 : Tok) (r2 : List Tok) (rest : List Char) (acc : List Tok)
    (stack : List (Delim × List Tok))
    (hcons : ∀ (Y : List Char) (acc2 : List Tok) (stack2 : List (Delim × List Tok)),
      lexLoop (renderTok t ++ Y) acc2 stack2 = lexLoop Y (eraseTok t :: acc2) stack2)
    (ihchop : lexLoop ((renderStream (t2 :: r2)).dropLast ++ rest) (eraseTok t :: acc) stack =
      lexLoop rest ((eraseStream (t2 :: r2)).reverse ++ (eraseTok t :: acc)) stack) :
    lexLoop ((renderStream (t :: t2 :: r2)).dropLast ++ rest) acc stack =
      lexLoop rest ((eraseStream (t :: t2 :: r2)).reverse ++ acc) stack := by
  have hne : renderStream (t2 :: r2) ≠ [] := by
    rw [renderStream_cons]
    intro h
    exact renderTok_ne_nil t2 (List.append_eq_nil.mp h).1
  rw [renderStream_cons t (t2 :: r2), List.dropLast_append_of_ne_nil _ hne,
    List.append_assoc, hcons, ihchop, eraseStream_cons]
  simp [eraseStream_cons, List.append_assoc]

theorem glue_single (t : Tok) (rest : List Char) (acc : List Tok)
    (stack : List (Delim × List Tok))
    (hchop : lexLoop ((renderTok t).dropLast ++ rest) acc stack =
      lexLoop rest (eraseTok t :: acc) stack) :
    lexLoop ((renderStream [t]).dropLast ++ rest) acc stack =
      lexLoop rest ((eraseStream [t]).reverse ++ acc) stack := by
  rw [renderStream_cons, renderStream_nil, List.append_nil, hchop,
    eraseStream_cons, eraseStream_nil]
  simp

theorem lex_render : ∀ (n : Nat) (ts : List Tok), sizeOf ts ≤ n →
    ∀ (rest : List Char) (acc : List Tok) (stack : List (Delim × List Tok)),
    wfStream ts = true → lexBoundary rest →
    (lexLoop (renderStream ts ++ rest) acc stack =
      lexLoop rest ((eraseStream ts).reverse ++ acc) stack) ∧
    (lexLoop ((renderStream ts).dropLast ++ rest) acc stack =
      lexLoop rest ((eraseStream ts).reverse ++ acc) stack) := by
  intro n
  induction n with
  | zero =>
    intro ts hsz
    cases ts with
    | nil => simp at hsz
    | cons t r => simp at hsz
  | succ n ih =>
    intro ts hsz rest acc stack hwf hb
    cases ts with
    | nil =>
      constructor <;> simp [renderStream_nil, eraseStream_nil]
    | cons t ts2 =>
      have hwf2 : wfStream ts2 = true := wfStream_tail hwf
      have hsz2 : sizeOf ts2 ≤ n := by
        have := tok_sizeOf_pos t
        simp at hsz
        omega
      have ihfull := (ih ts2 hsz2 rest (eraseTok t :: acc) stack hwf2 hb).1
      cases t with
      | ident s sp =>
        rw [wfStream_cons_ident, Bool.and_eq_true] at hwf
        refine ⟨glue_full _ ts2 rest acc stack (consume_ident s sp hwf.1) ihfull, ?_⟩
        cases ts2 with
        | nil => exact glue_single _ rest acc stack (chopped_ident s sp hwf.1 hb acc stack)
        | cons t2 r2 =>
          exact glue_chopped _ t2 r2 rest acc stack (consume_ident s sp hwf.1)
            (ih (t2 :: r2) hsz2 rest (eraseTok _ :: acc) stack hwf2 hb).2
      | lit s sp =>
        rw [wfStream_cons_lit, Bool.and_eq_true] at hwf
        refine ⟨glue_full _ ts2 rest acc stack (consume_lit s sp hwf.1) ihfull, ?_⟩
        cases ts2 with
        | nil => exact glue_single _ rest acc stack (chopped_lit s sp hwf.1 hb acc stack)
        | cons t2 r2 =>
          exact glue_chopped _ t2 r2 rest acc stack (consume_lit s sp hwf.1)
            (ih (t2 :: r2) hsz2 rest (eraseTok _ :: acc) stack hwf2 hb).2
      | punct c j sp =>
        rw [wfStream_cons_punct, Bool.and_eq_true, Bool.and_eq_true] at hwf
        refine ⟨glue_full _ ts2 rest acc stack (consume_punct c j sp hwf.1.1) ihfull, ?_⟩
        cases ts2 with
        | nil =>
          cases j with
          | false =>
            exact glue_single _ rest acc stack
              (chopped_punct_alone c sp hwf.1.1 rest acc stack)
          | true =>
            have hj := hwf.1.2
            rw [show headIsPunct ([] : List Tok) = false from rfl] at hj
            exact Bool.noConfusion hj
        | cons t2 r2 =>
          exact glue_chopped _ t2 r2 rest acc stack (consume_punct c j sp hwf.1.1)
            (ih (t2 :: r2) hsz2 rest (eraseTok _ :: acc) stack hwf2 hb).2
      | group d g sp =>
        rw [wfStream_cons_group, Bool.and_eq_true, Bool.and_eq_true] at hwf
        have hszg : sizeOf g ≤ n := by
          simp at hsz
          omega
        have ihg : ∀ (rest2 : List Char) (acc2 : List Tok)
            (stack2 : List (Delim × List Tok)), lexBoundary rest2 →
            lexLoop ((renderStream g).dropLast ++ rest2) acc2 stack2 =
              lexLoop rest2 ((eraseStream g).reverse ++ acc2) stack2 :=
          fun rest2 acc2 stack2 hb2 =>
            (ih g hszg rest2 acc2 stack2 hwf.1.2 hb2).2
        refine ⟨glue_full _ ts2 rest acc stack (consume_group d g sp hwf.1.1 ihg) ihfull, ?_⟩
        cases ts2 with
        | nil =>
          exact glue_single _ rest acc stack
            (chopped_group d g sp hwf.1.1 ihg rest acc stack)
        | cons t2 r2 =>
          exact glue_chopped _ t2 r2 rest acc stack (consume_group d g sp hwf.1.1 ihg)
            (ih (t2 :: r2) hsz2 rest (eraseTok _ :: acc) stack hwf2 hb).2

/-- C3 counterexample: the printer escapes braces for the later format
step by doubling them, so a brace-delimited group prints as doubled braces
and re-lexing yields an extra nesting level; the round trip fails on the
stream consisting of one brace group holding the identifier x, even though
it contains no pseudo-macro call. -/
theorem C3_counterexample :
    lexText (printTokensText [Tok.group Delim.brace [Tok.ident "x" callSite] callSite]) =
      some [Tok.group Delim.brace
        [Tok.group Delim.brace [Tok.ident "x" dummySpan] dummySpan] dummySpan] ∧
    containsCall "output"
      [Tok.group Delim.brace [Tok.ident "x" callSite] callSite] = false ∧
    containsCall "quote"
      [Tok.group Delim.brace [Tok.ident "x" callSite] callSite] = false ∧
    lexText (printTokensText [Tok.group Delim.brace [Tok.ident "x" callSite] callSite]) ≠
      some (eraseStream [Tok.group Delim.brace [Tok.ident "x" callSite] callSite]) := by
  have h1 : lexText (printTokensText
      [Tok.group Delim.brace [Tok.ident "x" callSite] callSite]) =
      some [Tok.group Delim.brace
        [Tok.group Delim.brace [Tok.ident "x" dummySpan] dummySpan] dummySpan] := by
    simp [lexText, printTokensText, printTokensInternal, printLoop, KEYWORDS,
      replaceSub, findSub, lexLoop, isWs, identStartChar, identContChar, digitChar,
      obr, cbr, callSite, dummySpan, stripPre]
  refine ⟨h1, ?_, ?_, ?_⟩
  · simp [containsCall, isCallHead, callTail5, callTail4, callTail3, callTail2,
      callTail1]
  · simp [containsCall, isCallHead, callTail5, callTail4, callTail3, callTail2,
      callTail1]
  · rw [h1]
    simp [eraseStream, eraseTok]

/-- C3 (amended): for every stream satisfying the printable invariants of
the modelled fragment - identifier and literal payloads well formed, joint
punctuation followed by punctuation, and all groups delimited by
parentheses or brackets (no brace groups) - and containing no pseudo-macro
calls, re-lexing the printed text reproduces the original token sequence
up to whitespace-insensitive identity (spans and spacing erased): the same
identifiers, literals, punctuation and groups in the same order and
nesting. Brace groups are excluded: the printer doubles braces for the
later format step, which re-lexing does not undo. -/
theorem C3_amended_round_trip (ts : List Tok) (hwf : wfStream ts = true)
    (hco : containsCall "output" ts = false)
    (hcq : containsCall "quote" ts = false) :
    lexText (printTokensText ts) = some (eraseStream ts) := by
  rw [printTokensText_eq_render ts hwf]
  unfold lexText
  have h := (lex_render (sizeOf ts) ts (le_refl _) [] [] [] hwf (Or.inl rfl)).1
  rw [List.append_nil, List.append_nil] at h
  rw [h, lexLoop_nil_nil, List.reverse_reverse]

/-- C3 witness: the amended round trip evaluated on the concrete stream
foo (12 +), whose groups are parenthesised and which contains no
pseudo-macro call. -/
theorem C3_witness :
    lexText (printTokensText [Tok.ident "foo" callSite,
      Tok.group Delim.paren
        [Tok.lit "12" callSite, Tok.punct '+' false callSite] callSite]) =
      some (eraseStream [Tok.ident "foo" callSite,
        Tok.group Delim.paren
          [Tok.lit "12" callSite, Tok.punct '+' false callSite] callSite]) := by
  refine C3_amended_round_trip _ ?_ ?_ ?_
  · simp [wfStream, wfIdentStr, wfLitStr, headIsPunct, punctChar,
      identStartChar, identContChar, digitChar, isWs]
  · simp [containsCall, isCallHead, callTail5, callTail4, callTail3, callTail2,
      callTail1]
  · simp [containsCall, isCallHead, callTail5, callTail4, callTail3, callTail2,
      callTail1]

end Crabtime
